import Mathlib

/-!
# qBittorrent `bittorrent.cpp`: embedding of the torrent lifecycle manager

The class `bittorrent` of `src/bittorrent.cpp` is embedded as a record of its
member variables together with the parts of the outside world the member
functions touch (the libtorrent session, the files of the backup directory,
the Qt signals emitted so far).  Every member function becomes a function on
that record.

Conventions of the embedding:

* `QString` paths and info-hashes are `String`; file contents (`QByteArray`)
  and `std::string` URLs are `List Char`.
* `QHash<QString, V>` is a function `String → Option V`.
* `int` and `size_type` values are `Int`.  A `long` is an `Int` kept within
  `Env.long_bits` bits (two's complement): every `long` addition and every
  cast to `long` goes through `wrapLong`.  A `double` is the rational it
  holds; a conversion to `double` and a `double` division round to the
  nearest value with a 53-bit significand, ties to even (`roundDouble`).
* The libtorrent session is the list of its torrent handles.  A
  `torrent_handle` argument or local of the source is represented by the
  info-hash it refers to and resolved against the session at each use; a read
  through a handle that is not valid yields the value of a default handle and
  a write through it does nothing.
* `std::cerr` output is counted, `qDebug` output is dropped.
-/

namespace Qbt

/-! ## libtorrent data -/

/-- An `announce_entry` of libtorrent: a tracker URL with its tier. -/
structure announce_entry where
  url : List Char
  tier : Int
deriving DecidableEq, Repr

/-- The part of `torrent_info` the controller reads: the info-hash (already
rendered by `misc::toString`), the torrent name, the sizes of the files
(`file_at(i).size`) and the announce list of the torrent file. -/
structure torrent_info where
  info_hash : String
  name : String
  files : List Int
  trackers : List announce_entry
deriving DecidableEq, Repr

/-- Model of `torrent_info::num_files`. -/
def torrent_info.num_files (t : torrent_info) : Nat := t.files.length

/-- Model of `torrent_info::total_size`: the sum of the file sizes. -/
def torrent_info.total_size (t : torrent_info) : Int := t.files.sum

/-- A `torrent_handle` together with the engine-side state it gives access
to.  `file_priorities` is the last vector given to `prioritize_files`,
`sequenced_download_threshold` and `max_uploads` the last values set.
`total_done` and `download_payload_rate` are the fields of `status()`; the
rate is a `float`, held as the rational it stands for. -/
structure torrent_handle where
  is_valid : Bool
  info : torrent_info
  save_path : String
  resume_data : Option (List Char)
  compact_mode : Bool
  is_paused : Bool
  is_seed : Bool
  has_metadata : Bool
  total_done : Int
  download_payload_rate : ℚ
  trackers : List announce_entry
  file_priorities : Option (List Int)
  max_uploads : Option Int
  sequenced_download_threshold : Option Int
deriving DecidableEq

/-- The info-hash of a handle, as `misc::toString(h.info_hash())`. -/
def torrent_handle.info_hash (h : torrent_handle) : String := h.info.info_hash

/-- A default-constructed `torrent_handle`: it is not valid. -/
def invalid_handle : torrent_handle :=
  { is_valid := false
    info := { info_hash := "", name := "", files := [], trackers := [] }
    save_path := ""
    resume_data := none
    compact_mode := true
    is_paused := false
    is_seed := false
    has_metadata := false
    total_done := 0
    download_payload_rate := 0
    trackers := []
    file_priorities := none
    max_uploads := none
    sequenced_download_threshold := none }

/-- Model of `session::find_torrent`: the handle of the session with the given
info-hash, or an invalid handle. -/
def find_torrent (s : List torrent_handle) (hash : String) : torrent_handle :=
  match s.find? (fun h => h.is_valid && decide (h.info_hash = hash)) with
  | some h => h
  | none => invalid_handle

/-- Model of `session::remove_torrent`: the torrent leaves the session. -/
def remove_torrent (s : List torrent_handle) (h : torrent_handle) : List torrent_handle :=
  s.filter (fun t => decide (t.info_hash ≠ h.info_hash))

/-- The effect of a mutating call `f` made through the handle of the torrent
with info-hash `hash`. -/
def modify_torrent (s : List torrent_handle) (hash : String)
    (f : torrent_handle → torrent_handle) : List torrent_handle :=
  s.map (fun t => if t.is_valid && decide (t.info_hash = hash) then f t else t)

/-- The engine-side state of a torrent freshly created by
`session::add_torrent(t, save_path, resume_data, compact_mode)`. -/
def new_torrent (t : torrent_info) (save_path : String) (resume_data : Option (List Char))
    (compact_mode : Bool) : torrent_handle :=
  { is_valid := true
    info := t
    save_path := save_path
    resume_data := resume_data
    compact_mode := compact_mode
    is_paused := false
    is_seed := false
    has_metadata := true
    total_done := 0
    download_payload_rate := 0
    trackers := t.trackers
    file_priorities := none
    max_uploads := none
    sequenced_download_threshold := none }

/-! ## Qt signals -/

/-- The signals of class `bittorrent`, with the arguments they carry (handles
are identified by their info-hash). -/
inductive Signal where
  | allTorrentsFinishedChecking
  | duplicateTorrent (origin : String)
  | invalidTorrent (origin : String)
  | addedTorrent (origin : String) (hash : String) (fastResume : Bool)
  | updateFileSize (hash : String)
  | finishedTorrent (hash : String)
  | fullDiskError (hash : String)
  | portListeningFailure
  | trackerError (hash : String) (time : String) (msg : String)
  | trackerAuthenticationRequired (hash : String)
  | peerBlocked (ip : String)
  | scanDirFoundTorrents (files : List String)
deriving DecidableEq, Repr

/-- The alerts `session::pop_alert` can deliver, as far as `readAlerts` tells
them apart by `dynamic_cast`: the five classes it tests for, with the data it
reads from them, and `other_alert` for an alert of any other class. -/
inductive alert where
  | torrent_finished_alert (handle : String)
  | file_error_alert (handle : String)
  | listen_failed_alert
  | tracker_alert (handle : String) (status_code : Int) (msg : String)
  | peer_blocked_alert (ip : String)
  | other_alert (msg : String)
deriving DecidableEq, Repr

/-! ## The controller state -/

/-- The member variables of `bittorrent` and the world around it.

* `s` is the libtorrent session (`session *s`);
* `fs` maps a path to the content of the file stored there;
* `dirs` tells which directories exist;
* `signals` is the log of signals emitted so far, oldest first;
* `deleters` lists the paths handed to a `deleteThread`;
* `errors` counts the messages written to `std::cerr`. -/
structure bittorrent where
  s : List torrent_handle
  fs : String → Option (List Char)
  dirs : String → Bool
  ETAstats : String → Option (List Int)
  ETAs : String → Option Int
  torrentsUnchecked : List String
  torrentsToPauseAfterChecking : List String
  defaultSavePath : String
  signals : List Signal
  deleters : List String
  errors : Nat

/-- Model of `QHash::operator[]` used as an assignment, and of `QHash::take`
when the value is `none`. -/
def qhash_set {V : Type} (m : String → Option V) (k : String) (v : Option V) :
    String → Option V :=
  fun q => if q = k then v else m q

/-! ## Text helpers (Qt and `misc`) -/

/-- Model of `QByteArray::split(sep)` and of `QString::split` with a
one-character separator: the fields between the separators, empty fields
kept; an empty text has one empty field. -/
def splitOn (sep : Char) : List Char → List (List Char)
  | [] => [[]]
  | c :: cs =>
    if c = sep then [] :: splitOn sep cs
    else
      match splitOn sep cs with
      | [] => [[c]]
      | p :: ps => (c :: p) :: ps

/-- The characters of a `const char*` view (`c_str()`, `data()`) of a text:
everything before the first NUL. -/
def c_str (cs : List Char) : List Char := cs.takeWhile (fun c => decide (c ≠ '\x00'))

/-- Model of `QChar::isSpace` on the ASCII range. -/
def isSpace (c : Char) : Bool :=
  c = ' ' || c = '\t' || c = '\n' || c = '\x0b' || c = '\x0c' || c = '\r'

/-- Model of `QString::trimmed` on the characters of a text. -/
def trimmedChars (cs : List Char) : List Char :=
  ((cs.dropWhile isSpace).reverse.dropWhile isSpace).reverse

/-- Removal of every occurrence of `pat`, scanning left to right; `skip`
counts the characters of a match still to be dropped. -/
def removeAllAux (pat : List Char) : Nat → List Char → List Char
  | _, [] => []
  | skip + 1, _ :: cs => removeAllAux pat skip cs
  | 0, c :: cs =>
    if pat ≠ [] ∧ pat.isPrefixOf (c :: cs) then removeAllAux pat (pat.length - 1) cs
    else c :: removeAllAux pat 0 cs

/-- The source file name `addTorrent` works on:
`path.trimmed().replace("file://", "")`. -/
def sourceFile (path : String) : String :=
  String.mk (removeAllAux "file://".data 0 (trimmedChars path.data))

/-- The value of a decimal digit. -/
def digitVal (c : Char) : Option Nat :=
  if '0' ≤ c ∧ c ≤ '9' then some (c.toNat - 48) else none

/-- Value of a run of decimal digits read after the value `acc`; `none` when a
character is not a digit. -/
def parseDigits : List Char → Nat → Option Nat
  | [], acc => some acc
  | c :: cs, acc =>
    match digitVal c with
    | some d => parseDigits cs (acc * 10 + d)
    | none => none

/-- Value of a non-empty run of decimal digits. -/
def parseNat (cs : List Char) : Option Nat :=
  match cs with
  | [] => none
  | _ :: _ => parseDigits cs 0

/-- Model of `QString::toInt()` and `QByteArray::toInt()` in base 10: white
space around the number is ignored, a sign is allowed, and the result is 0
when the text is not a number or does not fit an `int`. -/
def toInt (cs : List Char) : Int :=
  let r : Option Int :=
    match trimmedChars cs with
    | '-' :: ds => Option.map (fun n : Nat => -(n : Int)) (parseNat ds)
    | '+' :: ds => Option.map (fun n : Nat => (n : Int)) (parseNat ds)
    | ds => Option.map (fun n : Nat => (n : Int)) (parseNat ds)
  match r with
  | some v => if -2147483648 ≤ v ∧ v ≤ 2147483647 then v else 0
  | none => 0

namespace misc

/-- Modelled from the spec: `misc::toString` (declared in `misc.h`, which is
not part of the sources) applied to an unsigned index; the tracker file holds
the tier as an integer in text form, so this is the decimal numeral. -/
def toString (i : Nat) : List Char := Nat.toDigits 10 i

end misc

/-! ## Files -/

/-- Model of `QFile::remove`: the file, if any, is gone. -/
def fs_remove (fs : String → Option (List Char)) (p : String) : String → Option (List Char) :=
  fun q => if q = p then none else fs q

/-- A file opened `WriteOnly`, filled with `content` and closed. -/
def fs_write (fs : String → Option (List Char)) (p : String) (content : List Char) :
    String → Option (List Char) :=
  fun q => if q = p then some content else fs q

/-- Model of `QFile::rename(a, b)`: it fails, changing nothing, when `a` does
not exist or `b` already exists. -/
def fs_rename (fs : String → Option (List Char)) (a b : String) : String → Option (List Char) :=
  match fs a, fs b with
  | some content, none => fun q => if q = b then some content else if q = a then none else fs q
  | _, _ => fs

/-- Model of `QFile::copy(a, b)`: it fails, changing nothing, when `a` does not
exist or `b` already exists. -/
def fs_copy (fs : String → Option (List Char)) (a b : String) : String → Option (List Char) :=
  match fs a, fs b with
  | some content, none => fun q => if q = b then some content else fs q
  | _, _ => fs

/-- Model of `QStringList::indexOf`: position of the first occurrence, or -1. -/
def qlist_indexOf (l : List String) (x : String) : Int :=
  match l with
  | [] => -1
  | y :: ys =>
    if y = x then 0
    else
      let r := qlist_indexOf ys x
      if r = -1 then -1 else r + 1

/-- Model of `QList::removeAt(index)` for a non-negative index. -/
def qlist_removeAt (l : List String) (index : Int) : List String :=
  l.eraseIdx index.toNat

/-! ## Environment -/

/-- The two exceptions `addTorrent` catches: `invalid_encoding` (raised by
`bdecode`) and `invalid_torrent_file` (raised by the `torrent_info`
constructor). -/
inductive DecodeError where
  | invalid_encoding
  | invalid_torrent_file
deriving DecidableEq, Repr

/-- The collaborators the controller is run against.

* `qBittorrentPath` is `misc::qBittorrentPath()`;
* `homePath` is `QDir::homePath()`;
* `bdecode_torrent` is `bdecode` followed by the `torrent_info` constructor;
* `bdecode_entry` is `bdecode` on a fast-resume file (`none`: it raised);
* `write_resume_data` is `torrent_handle::write_resume_data`;
* `mkpath` tells whether `QDir::mkpath` manages to create a directory;
* `add_torrent_ok` tells whether `session::add_torrent` returns a valid handle;
* `long_bits` is the width in bits of the C++ type `long` on the platform the
  program is built for (32 or 64). -/
structure Env where
  qBittorrentPath : String
  homePath : String
  bdecode_torrent : List Char → Except DecodeError torrent_info
  bdecode_entry : List Char → Option (List Char)
  write_resume_data : torrent_handle → List Char
  mkpath : String → Bool
  add_torrent_ok : torrent_info → Bool
  long_bits : Nat

/-- The backup directory, `misc::qBittorrentPath() + "BT_backup"`. -/
def backupDir (env : Env) : String := env.qBittorrentPath ++ "BT_backup"

/-- A file of the backup directory:
`misc::qBittorrentPath()+"BT_backup"+QDir::separator()+name`. -/
def backupFile (env : Env) (name : String) : String := backupDir env ++ "/" ++ name

/-- The seven suffixes of the side-car files of a torrent. -/
def sidecarExts : List String :=
  [".torrent", ".fastresume", ".paused", ".incremental", ".priorities", ".savepath", ".trackers"]

/-- Coercion of a persisted priority: `if(priority < 0 || priority > 7) priority = 1`. -/
def clampPriority (priority : Int) : Int :=
  if priority < 0 ∨ priority > 7 then 1 else priority

/-! ## Machine arithmetic -/

/-- Truncation of a rational toward zero. -/
def truncToZero (q : ℚ) : Int := Int.tdiv q.num q.den

/-- The value a `long` of `bits` bits holds for the integer `x`: the
two's-complement representative of `x` modulo `2^bits`.  It is `x` itself when
`x` fits.  A signed overflow and an out-of-range conversion are undefined in
C++; the model takes the wrapped value for both, which is what
two's-complement hardware gives for an addition. -/
def wrapLong (bits : Nat) (x : Int) : Int :=
  (x + 2 ^ (bits - 1)) % 2 ^ bits - 2 ^ (bits - 1)

/-- Rounding of a rational to the nearest integer, ties to even. -/
def roundHalfEven (q : ℚ) : Int :=
  if q - ⌊q⌋ < 1 / 2 then ⌊q⌋
  else if 1 / 2 < q - ⌊q⌋ then ⌊q⌋ + 1
  else if ⌊q⌋ % 2 = 0 then ⌊q⌋ else ⌊q⌋ + 1

/-- The `double` nearest to the rational `q` (IEEE 754 binary64, round to
nearest, ties to even): with `2^e ≤ |q| < 2^(e+1)`, the multiple of
`2^(e-52)` nearest to `q`.  This is the arithmetic of a build that
evaluates `double` expressions in `double` precision.  The exponent range of
the format is not modelled; the operands of this program (64-bit integers,
`float` rates and their quotients) lie inside it. -/
def roundDouble (q : ℚ) : ℚ :=
  if q = 0 then 0
  else (roundHalfEven (q / (2 : ℚ) ^ (Int.log 2 |q| - 52)) : ℚ) * (2 : ℚ) ^ (Int.log 2 |q| - 52)

/-- The quotient `a / b` of two `double` values, rounded to a `double`. -/
def divDouble (a b : ℚ) : ℚ := roundDouble (a / b)

/-- The cast `(long)x` of the `double` `x` to a `long` of `bits` bits:
truncation toward zero, then the value kept as a `long`. -/
def castLong (bits : Nat) (x : ℚ) : Int := wrapLong bits (truncToZero x)

/-! ## ETA estimation -/

/-- The constant of `#define ETAS_MAX_VALUES 8`. -/
def ETAS_MAX_VALUES : Nat := 8

namespace bittorrent

/-- The `long` sample `updateETAs` computes for a handle:
`(long)((ti.total_size()-torrentStatus.total_done)/(double)torrentStatus.download_payload_rate)`.
The `size_type` difference is converted to `double`, the `float` rate is
converted to `double`, the quotient is a `double` division and the result is
cast to `long`. -/
def etaSample (env : Env) (h : torrent_handle) : Int :=
  castLong env.long_bits
    (divDouble (roundDouble ((h.info.total_size - h.total_done : Int) : ℚ))
      (roundDouble h.download_payload_rate))

/-- Body of the `for` loop of `updateETAs` for one handle. -/
def updateETAs_handle (env : Env) (st : bittorrent) (h : torrent_handle) : bittorrent :=
  if h.is_valid then
    let hash := h.info_hash
    let listEtas := (st.ETAstats hash).getD []
    let listEtas := if listEtas.length = ETAS_MAX_VALUES then listEtas.tail else listEtas
    if h.download_payload_rate ≠ 0 then
      let listEtas := listEtas ++ [etaSample env h]
      let moy : Int := listEtas.foldl (fun acc val => wrapLong env.long_bits (acc + val)) 0
      { st with
        ETAstats := qhash_set st.ETAstats hash (some listEtas)
        ETAs := qhash_set st.ETAs hash
          (some (castLong env.long_bits
            (divDouble (roundDouble (moy : ℚ)) (roundDouble ((listEtas.length : Int) : ℚ))))) }
    else st
  else st

/-- Model of `bittorrent::updateETAs`: one pass over `s->get_torrents()`. -/
def updateETAs (env : Env) (st : bittorrent) : bittorrent :=
  st.s.foldl (updateETAs_handle env) st

/-- Model of `bittorrent::getETA`: `ETAs.value(hash, -1)`. -/
def getETA (st : bittorrent) (hash : String) : Int :=
  (st.ETAs hash).getD (-1)

/-- A timer tick of `ETARefresher`: the engine has moved on to the session
snapshot `snap`, then `updateETAs` runs. -/
def etaTick (env : Env) (st : bittorrent) (snap : List torrent_handle) : bittorrent :=
  updateETAs env { st with s := snap }

/-- A sequence of timer ticks, one session snapshot per tick. -/
def etaTicks (env : Env) (st : bittorrent) (ticks : List (List torrent_handle)) : bittorrent :=
  ticks.foldl (etaTick env) st

/-- The samples one tick produces for identifier `id`: one for each valid
handle of the snapshot with that identifier and a nonzero download rate. -/
def tickSamples (env : Env) (id : String) (snap : List torrent_handle) : List Int :=
  (snap.filter (fun h => h.is_valid && decide (h.info_hash = id)
      && decide (h.download_payload_rate ≠ 0))).map (etaSample env)

/-- The samples `s_1..s_n` a sequence of ticks produces for `id`, oldest first. -/
def samplesOf (env : Env) (id : String) (ticks : List (List torrent_handle)) : List Int :=
  ticks.flatMap (tickSamples env id)

/-- The sample window `ETAstats.value(id, QList<long>())` of an identifier. -/
def etaWindow (st : bittorrent) (id : String) : List Int :=
  (st.ETAstats id).getD []

/-- The value `updateETAs` publishes for the window `l`: the `long` sum of
the window, divided in `double` arithmetic by its length and cast to `long`. -/
def windowMean (env : Env) (l : List Int) : Int :=
  castLong env.long_bits
    (divDouble
      (roundDouble ((l.foldl (fun acc val => wrapLong env.long_bits (acc + val)) 0 : Int) : ℚ))
      (roundDouble ((l.length : Int) : ℚ)))

end bittorrent

namespace bittorrent

/-- A signal is emitted. -/
def emit (st : bittorrent) (sig : Signal) : bittorrent :=
  { st with signals := st.signals ++ [sig] }

/-- Model of `bittorrent::getTorrentHandle`. -/
def getTorrentHandle (st : bittorrent) (hash : String) : torrent_handle :=
  find_torrent st.s hash

/-- Model of `bittorrent::isPaused`. -/
def isPaused (st : bittorrent) (hash : String) : Bool :=
  let h := find_torrent st.s hash
  if !h.is_valid then true else h.is_paused

/-! ### Unchecked list -/

/-- Model of `bittorrent::getUncheckedTorrentsList`. -/
def getUncheckedTorrentsList (st : bittorrent) : List String := st.torrentsUnchecked

/-- Model of `bittorrent::getTorrentsToPauseAfterChecking`. -/
def getTorrentsToPauseAfterChecking (st : bittorrent) : List String :=
  st.torrentsToPauseAfterChecking

/-- Model of `bittorrent::setTorrentFinishedChecking`. -/
def setTorrentFinishedChecking (st : bittorrent) (hash : String) : bittorrent :=
  let index := qlist_indexOf st.torrentsUnchecked hash
  if index ≠ -1 then
    let st := { st with torrentsUnchecked := qlist_removeAt st.torrentsUnchecked index }
    if st.torrentsUnchecked.length = 0 then
      emit st Signal.allTorrentsFinishedChecking
    else st
  else st

/-! ### Tracker file -/

/-- The text `saveTrackerFile` writes for a tracker vector whose first entry
has index `i`: one line `url|index` per tracker. -/
def trackerLines : Nat → List announce_entry → List Char
  | _, [] => []
  | i, t :: ts =>
    c_str t.url ++ ['|'] ++ misc.toString i ++ ['\n'] ++ trackerLines (i + 1) ts

/-- Model of `bittorrent::saveTrackerFile`. -/
def saveTrackerFile (env : Env) (st : bittorrent) (hash : String) : bittorrent :=
  let tracker_file := backupFile env (hash ++ ".trackers")
  let h := getTorrentHandle st hash
  let trackers := h.trackers
  { st with fs := fs_write (fs_remove st.fs tracker_file) tracker_file (trackerLines 0 trackers) }

/-- The tracker vector `loadTrackerFile` builds from the lines of the file:
a line with exactly two `|`-separated parts gives an entry, any other line is
skipped. -/
def parseTrackerLines : List (List Char) → List announce_entry
  | [] => []
  | line :: lines =>
    match splitOn '|' line with
    | [url, tier] => { url := url, tier := toInt tier } :: parseTrackerLines lines
    | _ => parseTrackerLines lines

/-- Model of `bittorrent::loadTrackerFile`: the new state and the returned
flag. -/
def loadTrackerFile (env : Env) (st : bittorrent) (hash : String) : bittorrent × Bool :=
  match st.fs (backupFile env (hash ++ ".trackers")) with
  | none => (st, false)
  | some content =>
    let lines := splitOn '\n' (c_str content)
    let trackers := parseTrackerLines lines
    if trackers.length ≠ 0 then
      ({ st with s := modify_torrent st.s hash (fun h => { h with trackers := trackers }) }, true)
    else (st, false)

/-! ### Priorities file -/

/-- Model of `bittorrent::hasFilteredFiles`. -/
def hasFilteredFiles (env : Env) (st : bittorrent) (fileHash : String) : Bool :=
  match st.fs (backupFile env (fileHash ++ ".priorities")) with
  | none => false
  | some pieces_text =>
    let pieces_priorities_list := splitOn '\n' pieces_text
    let listSize := pieces_priorities_list.length
    (List.range (listSize - 1)).any (fun i =>
      decide (clampPriority (toInt (pieces_priorities_list.getD i [])) = 0))

/-- Model of `bittorrent::torrentEffectiveSize`. -/
def torrentEffectiveSize (env : Env) (st : bittorrent) (hash : String) : Int :=
  let h := getTorrentHandle st hash
  let t := h.info
  let nbFiles := t.num_files
  if !h.is_valid then t.total_size
  else
    match st.fs (backupFile env (hash ++ ".priorities")) with
    | none => t.total_size
    | some pieces_priorities =>
      let pieces_priorities_list := splitOn '\n' pieces_priorities
      if pieces_priorities_list.length ≠ nbFiles + 1 then t.total_size
      else
        (List.range nbFiles).foldl (fun effective_size i =>
          let priority := clampPriority (toInt (pieces_priorities_list.getD i []))
          if priority ≠ 0 then effective_size + t.files.getD i 0 else effective_size) 0

/-- The vector `loadFilteredFiles` hands to `prioritize_files` for the handle
with info-hash `hash`, or `none` when it returns without calling it. -/
def filteredFilesVector (env : Env) (st : bittorrent) (hash : String) : Option (List Int) :=
  let h := find_torrent st.s hash
  let torrentInfo := h.info
  let nbFiles := torrentInfo.num_files
  if !h.is_valid then none
  else
    match st.fs (backupFile env (torrentInfo.info_hash ++ ".priorities")) with
    | none => none
    | some pieces_priorities =>
      let pieces_priorities_list := splitOn '\n' pieces_priorities
      if pieces_priorities_list.length ≠ nbFiles + 1 then none
      else
        some ((List.range nbFiles).foldl (fun v i =>
          v ++ [clampPriority (toInt (pieces_priorities_list.getD i []))]) [])

/-- Model of `bittorrent::loadFilteredFiles` on the handle with info-hash
`hash`. -/
def loadFilteredFiles (env : Env) (st : bittorrent) (hash : String) : bittorrent :=
  match filteredFilesVector env st hash with
  | none =>
    if (find_torrent st.s hash).is_valid
        ∧ (st.fs (backupFile env ((find_torrent st.s hash).info.info_hash ++ ".priorities"))).isSome
    then { st with errors := st.errors + 1 } else st
  | some v =>
    { st with s := modify_torrent st.s hash (fun h => { h with file_priorities := some v }) }

/-! ### Save path -/

/-- Model of `bittorrent::getSavePath`: the new state and the returned path. -/
def getSavePath (env : Env) (st : bittorrent) (hash : String) : bittorrent × String :=
  let savePath :=
    match st.fs (backupFile env (hash ++ ".savepath")) with
    | some line => String.mk (c_str line)
    | none => st.defaultSavePath
  if st.dirs savePath then (st, savePath)
  else if env.mkpath savePath then
    ({ st with dirs := fun d => decide (d = savePath) || st.dirs d }, savePath)
  else ({ st with errors := st.errors + 1 }, env.homePath)

/-! ### Delete, pause, resume -/

/-- Model of `bittorrent::deleteTorrent`. -/
def deleteTorrent (env : Env) (st : bittorrent) (hash : String) (permanent : Bool) : bittorrent :=
  let h := find_torrent st.s hash
  if !h.is_valid then st
  else
    let savePath := h.save_path
    let fileName := h.info.name
    let st := { st with s := remove_torrent st.s h }
    let st := { st with fs := fs_remove st.fs (backupFile env (hash ++ ".torrent")) }
    let st := { st with fs := fs_remove st.fs (backupFile env (hash ++ ".fastresume")) }
    let st := { st with fs := fs_remove st.fs (backupFile env (hash ++ ".paused")) }
    let st := { st with fs := fs_remove st.fs (backupFile env (hash ++ ".incremental")) }
    let st := { st with fs := fs_remove st.fs (backupFile env (hash ++ ".priorities")) }
    let st := { st with fs := fs_remove st.fs (backupFile env (hash ++ ".savepath")) }
    let st := { st with fs := fs_remove st.fs (backupFile env (hash ++ ".trackers")) }
    let st := { st with ETAstats := qhash_set st.ETAstats hash none }
    let st := { st with ETAs := qhash_set st.ETAs hash none }
    if permanent then
      { st with deleters := st.deleters ++ [savePath ++ "/" ++ fileName] }
    else st

/-- Model of `bittorrent::pauseTorrent`. -/
def pauseTorrent (env : Env) (st : bittorrent) (hash : String) : bittorrent :=
  let h := find_torrent st.s hash
  if h.is_valid && !h.is_paused then
    let st := { st with s := modify_torrent st.s hash (fun h => { h with is_paused := true }) }
    let st := { st with fs := fs_write st.fs (backupFile env (hash ++ ".paused")) [] }
    let index := qlist_indexOf st.torrentsToPauseAfterChecking hash
    if index ≠ -1 then
      { st with
        torrentsToPauseAfterChecking := qlist_removeAt st.torrentsToPauseAfterChecking index }
    else st
  else st

/-- Model of `bittorrent::resumeTorrent`. -/
def resumeTorrent (env : Env) (st : bittorrent) (hash : String) : bittorrent :=
  let h := find_torrent st.s hash
  if h.is_valid && h.is_paused then
    let st := { st with s := modify_torrent st.s hash (fun h => { h with is_paused := false }) }
    { st with fs := fs_remove st.fs (backupFile env (hash ++ ".paused")) }
  else st

/-! ### Adding a torrent -/

/-- The origin `addTorrent` reports in its signals: the URL when one was
given (`!from_url.isNull()`), otherwise the file. -/
def originOf (from_url : Option String) (file : String) : String :=
  match from_url with
  | some url => url
  | none => file

/-- The two `catch` blocks of `addTorrent` (they are identical): the observer
is told, and a file of the scan directory gets the suffix `.corrupt`. -/
def addTorrent_invalid (st : bittorrent) (file : String) (fromScanDir : Bool)
    (from_url : Option String) : bittorrent :=
  let st := emit st (Signal.invalidTorrent (originOf from_url file))
  if fromScanDir then
    let st := { st with fs := fs_remove st.fs (file ++ ".corrupt") }
    { st with fs := fs_rename st.fs file (file ++ ".corrupt") }
  else st

/-- The backward-compatibility block of `addTorrent`: the five renames of a
record named after the torrent to the names built on the hash. -/
def migrateLegacy (env : Env) (fs : String → Option (List Char)) (name hash : String) :
    String → Option (List Char) :=
  let fs := fs_rename fs (backupFile env (name ++ ".torrent")) (backupFile env (hash ++ ".torrent"))
  let fs := fs_rename fs (backupFile env (name ++ ".fastresume"))
    (backupFile env (hash ++ ".fastresume"))
  let fs := fs_rename fs (backupFile env (name ++ ".savepath"))
    (backupFile env (hash ++ ".savepath"))
  let fs := fs_rename fs (backupFile env (name ++ ".paused")) (backupFile env (hash ++ ".paused"))
  fs_rename fs (backupFile env (name ++ ".incremental")) (backupFile env (hash ++ ".incremental"))

/-- The block `// Load trackers` of `addTorrent`: `loadTrackerFile`, and when
it loaded nothing, `saveTrackerFile` followed by `loadTrackerFile`. -/
def addTorrent_trackers (env : Env) (st : bittorrent) (hash : String) : bittorrent :=
  let loaded_trackers := loadTrackerFile env st hash
  if !loaded_trackers.2 then
    (loadTrackerFile env (saveTrackerFile env loaded_trackers.1 hash) hash).1
  else loaded_trackers.1

/-- The block of `addTorrent` that copies the torrent file to the backup
directory: `if(file != newFile){ QFile::remove(newFile); QFile::copy(file, newFile); }`. -/
def addTorrent_store (env : Env) (st : bittorrent) (file hash : String) : bittorrent :=
  let newFile := backupFile env (hash ++ ".torrent")
  if file ≠ newFile then { st with fs := fs_copy (fs_remove st.fs newFile) file newFile }
  else st

/-- The block `// Pause torrent if it was paused last time` of `addTorrent`. -/
def addTorrent_deferPause (env : Env) (st : bittorrent) (hash : String) : bittorrent :=
  if (st.fs (backupFile env (hash ++ ".paused"))).isSome then
    { st with torrentsToPauseAfterChecking := st.torrentsToPauseAfterChecking ++ [hash] }
  else st

/-- The block `// Incremental download` of `addTorrent`. -/
def addTorrent_incremental (env : Env) (st : bittorrent) (hash : String) : bittorrent :=
  if (st.fs (backupFile env (hash ++ ".incremental"))).isSome then
    let s := modify_torrent st.s hash (fun h => { h with sequenced_download_threshold := some 15 })
    { st with s := s }
  else st

/-- The blocks `// If download from url` and `// Delete from scan dir` of
`addTorrent`. -/
def addTorrent_removeSource (st : bittorrent) (file : String) (fromScanDir : Bool)
    (from_url : Option String) : bittorrent :=
  let st := if from_url.isSome then { st with fs := fs_remove st.fs file } else st
  if fromScanDir then { st with fs := fs_remove st.fs file } else st

/-- The call `h.set_max_uploads(-1)` of `addTorrent`. -/
def addTorrent_maxUploads (st : bittorrent) (hash : String) : bittorrent :=
  { st with s := modify_torrent st.s hash (fun h => { h with max_uploads := some (-1) }) }

/-- The part of `addTorrent` that follows a successful `add_torrent`: from
`h.set_max_uploads(-1)` to the `addedTorrent` signal. -/
def addTorrent_finish (env : Env) (st : bittorrent) (file hash : String) (fromScanDir : Bool)
    (from_url : Option String) (fastResume : Bool) : bittorrent :=
  let st := addTorrent_maxUploads st hash
  let st := loadFilteredFiles env st hash
  let st := addTorrent_trackers env st hash
  let st := addTorrent_store env st file hash
  let st := addTorrent_deferPause env st hash
  let st := addTorrent_incremental env st hash
  let st := addTorrent_removeSource st file fromScanDir from_url
  emit st (Signal.addedTorrent (originOf from_url file) hash fastResume)

/-- The part of `addTorrent` that follows the duplicate test, for a torrent
that is not yet in the session. -/
def addTorrent_new (env : Env) (st : bittorrent) (file : String) (t : torrent_info)
    (fromScanDir : Bool) (from_url : Option String) : bittorrent :=
  let hash := t.info_hash
  let migrate := (st.fs (backupFile env (t.name ++ ".torrent"))).isSome
  let st := if migrate then { st with fs := migrateLegacy env st.fs t.name hash } else st
  let file := if migrate then backupFile env (hash ++ ".torrent") else file
  let resume_data : Option (List Char) :=
    match st.fs (backupFile env (hash ++ ".fastresume")) with
    | some content => env.bdecode_entry content
    | none => none
  let fastResume := resume_data.isSome
  let sp := getSavePath env st hash
  let st := sp.1
  let savePath := sp.2
  let compact_mode := !hasFilteredFiles env st hash
  if !env.add_torrent_ok t then st
  else
    let st := { st with s := st.s ++ [new_torrent t savePath resume_data compact_mode] }
    addTorrent_finish env st file hash fromScanDir from_url fastResume

/-- The `try` block of `addTorrent` from the duplicate test
`if(s->find_torrent(t.info_hash()).is_valid())` on. -/
def addTorrent_checkDuplicate (env : Env) (st : bittorrent) (file : String) (t : torrent_info)
    (fromScanDir : Bool) (from_url : Option String) : bittorrent :=
  if (find_torrent st.s t.info_hash).is_valid then
    if !fromScanDir then emit st (Signal.duplicateTorrent (originOf from_url file))
    else { st with fs := fs_remove st.fs file }
  else addTorrent_new env st file t fromScanDir from_url

/-- The `try` block of `addTorrent` once the torrent file has been decoded
into `t`: the hash is registered as unchecked on startup, then the duplicate
test follows. -/
def addTorrent_decoded (env : Env) (st : bittorrent) (file : String) (t : torrent_info)
    (fromScanDir onStartup : Bool) (from_url : Option String) : bittorrent :=
  let st :=
    if onStartup then { st with torrentsUnchecked := st.torrentsUnchecked ++ [t.info_hash] }
    else st
  addTorrent_checkDuplicate env st file t fromScanDir from_url

/-- What `bdecode` and the `torrent_info` constructor make of the file at
`file`; a file that cannot be read is an empty input, which `bdecode`
rejects. -/
def readTorrentFile (env : Env) (st : bittorrent) (file : String) :
    Except DecodeError torrent_info :=
  match st.fs file with
  | none => Except.error DecodeError.invalid_encoding
  | some content => env.bdecode_torrent content

/-- Model of `bittorrent::addTorrent`.  The result is `none` when the process
ends in `exit(1)` because the backup directory cannot be created. -/
def addTorrent (env : Env) (st : bittorrent) (path : String) (fromScanDir onStartup : Bool)
    (from_url : Option String) : Option bittorrent :=
  if !st.dirs (backupDir env) && !env.mkpath (backupDir env) then none
  else
    let st := { st with dirs := fun d => decide (d = backupDir env) || st.dirs d }
    let file := sourceFile path
    if file = "" then some st
    else
      match readTorrentFile env st file with
      | Except.error _ => some (addTorrent_invalid st file fromScanDir from_url)
      | Except.ok t => some (addTorrent_decoded env st file t fromScanDir onStartup from_url)

/-! ### Reloading a torrent -/

/-- The wait loop of `reloadTorrent`,
`while(h.is_valid() && timeout < 6){ msleep(1000); ++timeout; }`,
started with the given value of `timeout` after `polls` calls of
`h.is_valid()` have been made since `remove_torrent`; `valid k` is the answer
of the `k`-th such call (counting from 0), and every evaluation of the loop
condition makes one call.  The result is the final value of `timeout`, which
is also the number of sleeps, and the number of calls made when the loop is
left. -/
def reloadWait (valid : Nat → Bool) (timeout polls : Nat) : Nat × Nat :=
  if valid polls && decide (timeout < 6) then reloadWait valid (timeout + 1) (polls + 1)
  else (timeout, polls + 1)
termination_by 6 - timeout
decreasing_by
  simp_wf
  rename_i h
  simp at h
  omega

/-- What a call of `reloadTorrent` did: the state reached, the number of
one-second sleeps of the wait loop, the number of calls of `h.is_valid()` the
loop condition made, the number of calls of `h.is_valid()` made after
`remove_torrent` in all (loop condition and the test after the loop), and
whether `add_torrent` was called. -/
structure ReloadResult where
  state : bittorrent
  sleeps : Nat
  loopPolls : Nat
  polls : Nat
  added : Bool

/-- The first part of `reloadTorrent`, for a valid handle: the backup
directory is created if missing, the torrent is paused and
`s->remove_torrent(h)` is called.  The engine drops the torrent
asynchronously: it stays in the session for as long as the old handle answers
`is_valid()` with true, which is what the source polls for; the session of
this state still holds it.  (`deleteTorrent` never looks at the handle again
and is modelled at the moment the torrent has left.) -/
def reloadTorrent_remove (env : Env) (st : bittorrent) (hash : String) : bittorrent :=
  let st :=
    if st.dirs (backupDir env) then st
    else if env.mkpath (backupDir env) then
      { st with dirs := fun d => decide (d = backupDir env) || st.dirs d }
    else st
  { st with s := modify_torrent st.s hash (fun h => { h with is_paused := true }) }

/-- The session once the old handle `h` has been found invalid: the engine
has dropped the torrent. -/
def reloadTorrent_dropped (st : bittorrent) (h : torrent_handle) : bittorrent :=
  { st with s := remove_torrent st.s h }

/-- The last part of `reloadTorrent`: `add_torrent` with the metadata, save
path and resume data taken from the old handle `h`, then the persisted
priorities, paused flag and incremental flag are applied again. -/
def reloadTorrent_readd (env : Env) (st : bittorrent) (h : torrent_handle)
    (resumeData : Option (List Char)) (compact_mode : Bool) : bittorrent :=
  let fileHash := h.info_hash
  let st :=
    if env.add_torrent_ok h.info then
      { st with s := st.s ++ [new_torrent h.info h.save_path resumeData compact_mode] }
    else st
  let st :=
    { st with s := modify_torrent st.s fileHash (fun h => { h with max_uploads := some (-1) }) }
  let st := loadFilteredFiles env st fileHash
  let st :=
    if (st.fs (backupFile env (fileHash ++ ".paused"))).isSome then
      { st with s := modify_torrent st.s fileHash (fun h => { h with is_paused := true }) }
    else st
  let st :=
    if (st.fs (backupFile env (fileHash ++ ".incremental"))).isSome then
      let s :=
        modify_torrent st.s fileHash (fun h => { h with sequenced_download_threshold := some 15 })
      { st with s := s }
    else st
  emit st (Signal.updateFileSize fileHash)

/-- Model of `bittorrent::reloadTorrent` for the handle with info-hash
`hash`; `valid` gives the answers of the old handle to `is_valid()` after
`remove_torrent` has been called: the wait loop consumes the answers
`0 .. timeout` and the test after the loop the next one.  When that test
finds the old handle still valid the function returns, the torrent still in
the session; otherwise the torrent has left the session and `add_torrent` is
called. -/
def reloadTorrent (env : Env) (st : bittorrent) (hash : String) (compact_mode : Bool)
    (valid : Nat → Bool) : ReloadResult :=
  let h := find_torrent st.s hash
  if !h.is_valid then { state := st, sleeps := 0, loopPolls := 0, polls := 0, added := false }
  else
    let resumeData : Option (List Char) :=
      if h.has_metadata then
        some (env.write_resume_data { h with is_paused := true })
      else none
    let st := reloadTorrent_remove env st hash
    let w := reloadWait valid 0 0
    if valid w.2 then
      { state := { st with errors := st.errors + 1 }, sleeps := w.1, loopPolls := w.2,
        polls := w.2 + 1, added := false }
    else
      { state := reloadTorrent_readd env (reloadTorrent_dropped st h) h resumeData compact_mode,
        sleeps := w.1, loopPolls := w.2, polls := w.2 + 1, added := true }

/-! ### Alerts -/

/-- The body of the `while` loop of `readAlerts` for the alert `a`, the clock
reading `now` being what `QTime::currentTime().toString("hh:mm:ss")` returns. -/
def readAlerts_alert (st : bittorrent) (a : alert) (now : String) : bittorrent :=
  match a with
  | alert.torrent_finished_alert handle => emit st (Signal.finishedTorrent handle)
  | alert.file_error_alert handle => emit st (Signal.fullDiskError handle)
  | alert.listen_failed_alert => emit st Signal.portListeningFailure
  | alert.tracker_alert handle status_code msg =>
    let st := emit st (Signal.trackerError handle now msg)
    if status_code = 401 then emit st (Signal.trackerAuthenticationRequired handle) else st
  | alert.peer_blocked_alert ip => emit st (Signal.peerBlocked ip)
  | alert.other_alert _ => st

/-- Model of `bittorrent::readAlerts` on the alert queue `queue` of the
session: alerts are popped until `pop_alert` returns null.  `clock k` is the
clock reading while the alert number `k` is handled, `k` counting from the
given start.  The result is the state reached and the queue left. -/
def readAlerts (st : bittorrent) (queue : List alert) (clock : Nat → String) (k : Nat) :
    bittorrent × List alert :=
  match queue with
  | [] => (st, [])
  | a :: rest => readAlerts (readAlerts_alert st a (clock k)) rest clock (k + 1)

/-! ### Handles of the session -/

/-- Model of `bittorrent::getTorrentHandles`: `s->get_torrents()`. -/
def getTorrentHandles (st : bittorrent) : List torrent_handle := st.s

/-- Model of `bittorrent::getFinishedTorrentHandles`.  The local vector
`handles` is default-constructed and never assigned, so the loop runs over an
empty vector. -/
def getFinishedTorrentHandles (_st : bittorrent) : List torrent_handle :=
  let handles : List torrent_handle := []
  handles.foldl (fun finished h => if h.is_seed then finished ++ [h] else finished) []

end bittorrent

/-- The last `n` elements of a list. -/
def lastN {α : Type} (n : Nat) (l : List α) : List α := l.drop (l.length - n)

/-- Invariant of the ETA maps for one identifier: after the samples `ss` have
been produced, its window holds the last eight of them and, once there is a
sample, the published value is the mean `updateETAs` computes on that window. -/
def bittorrent.EtaInv (env : Env) (st : bittorrent) (id : String) (ss : List Int) : Prop :=
  st.etaWindow id = lastN 8 ss ∧
  (ss ≠ [] → st.ETAs id = some (bittorrent.windowMean env (lastN 8 ss)))

/-- A state of the controller right after construction, over a given file
system: empty session, no ETA data, empty lists, nothing emitted. -/
def initialState (fs : String → Option (List Char)) (dirs : String → Bool)
    (defaultSavePath : String) : bittorrent :=
  { s := []
    fs := fs
    dirs := dirs
    ETAstats := fun _ => none
    ETAs := fun _ => none
    torrentsUnchecked := []
    torrentsToPauseAfterChecking := []
    defaultSavePath := defaultSavePath
    signals := []
    deleters := []
    errors := 0 }

/-- A running, valid handle of a single-file torrent, used in examples. -/
def sampleHandle (hash : String) (size done : Int) (rate : ℚ) : torrent_handle :=
  { invalid_handle with
    is_valid := true
    info := { info_hash := hash, name := "sample", files := [size], trackers := [] }
    has_metadata := true
    total_done := done
    download_payload_rate := rate }

/-- The tracker list `L` with the tier of each entry replaced by its position,
counted from `i`. -/
def tiersByPosition : Nat → List announce_entry → List announce_entry
  | _, [] => []
  | i, t :: ts => { url := t.url, tier := (i : Int) } :: tiersByPosition (i + 1) ts

/-- A URL that can be stored on a line of the tracker file: it contains no
NUL, no `|` and no line feed. -/
def plainUrl (url : List Char) : Prop :=
  '\x00' ∉ url ∧ '|' ∉ url ∧ '\n' ∉ url

instance plainUrl.decidable (url : List Char) : Decidable (plainUrl url) := by
  unfold plainUrl
  exact inferInstance

/-- Relation between the state before and after a step of `addTorrent` that
works on the torrent `hash`: the step emits no signal, keeps the directories,
the validity of every handle and the unchecked list, and creates no file other
than `hash.trackers` and `hash.torrent` in the backup directory. -/
def StepFrame (env : Env) (hash : String) (a b : bittorrent) : Prop :=
  b.signals = a.signals
  ∧ b.dirs = a.dirs
  ∧ (∀ k, (find_torrent b.s k).is_valid = (find_torrent a.s k).is_valid)
  ∧ b.torrentsUnchecked = a.torrentsUnchecked
  ∧ ∀ p, p ≠ backupFile env (hash ++ ".trackers") → p ≠ backupFile env (hash ++ ".torrent") →
      a.fs p = none → b.fs p = none

/-- The signals one alert gives rise to, `now` being the clock reading. -/
def alertSignals (a : alert) (now : String) : List Signal :=
  match a with
  | alert.torrent_finished_alert handle => [Signal.finishedTorrent handle]
  | alert.file_error_alert handle => [Signal.fullDiskError handle]
  | alert.listen_failed_alert => [Signal.portListeningFailure]
  | alert.tracker_alert handle status_code msg =>
    if status_code = 401 then
      [Signal.trackerError handle now msg, Signal.trackerAuthenticationRequired handle]
    else [Signal.trackerError handle now msg]
  | alert.peer_blocked_alert ip => [Signal.peerBlocked ip]
  | alert.other_alert _ => []

/-- The signals a queue gives rise to, alert by alert, the first alert being
handled at clock index `k`. -/
def queueSignals (clock : Nat → String) : Nat → List alert → List Signal
  | _, [] => []
  | k, a :: rest => alertSignals a (clock k) ++ queueSignals clock (k + 1) rest

/-- The number of signals `readAlerts` emits for an alert: none for an alert of
a class it does not test for, two for a tracker alert with status 401, one
otherwise. -/
def alertSignalCount (a : alert) : Nat :=
  match a with
  | alert.other_alert _ => 0
  | alert.tracker_alert _ status_code _ => if status_code = 401 then 2 else 1
  | _ => 1

/-! ## Sample data used by the examples -/

/-- A torrent of three files with one tracker of tier 5. -/
def sampleInfo : torrent_info :=
  { info_hash := "H"
    name := "demo"
    files := [10, 20, 30]
    trackers := [{ url := "http://a/announce".toList, tier := 5 }] }

/-- An environment in which the text `torrent-H` decodes to `sampleInfo`,
nothing else decodes, directories can be created, the engine accepts every
torrent and a `long` has 64 bits. -/
def sampleEnv : Env :=
  { qBittorrentPath := "/q/"
    homePath := "/home"
    bdecode_torrent := fun content =>
      if content = "torrent-H".toList then Except.ok sampleInfo
      else Except.error DecodeError.invalid_encoding
    bdecode_entry := fun _ => none
    write_resume_data := fun _ => []
    mkpath := fun _ => true
    add_torrent_ok := fun _ => true
    long_bits := 64 }

/-- A state whose session holds `sampleInfo` and whose backup directory holds
the priorities file `0`, `9`, `3` for it. -/
def sampleState : bittorrent :=
  { initialState
      (fun p => if p = "/q/BT_backup/H.priorities" then some "0\n9\n3\n".toList else none)
      (fun _ => true) "/dl" with
    s := [new_torrent sampleInfo "/dl" none true] }

/-- The state `sampleState` with the priorities file `2147483648`, `9`, `3`:
the first entry is an integer that does not fit an `int`. -/
def oversizedPriorityState : bittorrent :=
  { sampleState with
    fs := fun p =>
      if p = "/q/BT_backup/H.priorities" then some "2147483648\n9\n3\n".toList else none }

/-- A state with an empty session and an empty backup directory; the torrent
file of `sampleInfo` lies at `/src/a.torrent`. -/
def sourceOnlyState : bittorrent :=
  initialState (fun p => if p = "/src/a.torrent" then some "torrent-H".toList else none)
    (fun _ => true) "/dl"

/-- The state reached from `sourceOnlyState` by adding `/src/a.torrent`. -/
def addedState : bittorrent :=
  (bittorrent.addTorrent sampleEnv sourceOnlyState "/src/a.torrent" false false none).getD
    sourceOnlyState

/-- The state reached from `addedState` by pausing the torrent, deleting it
and adding `/src/a.torrent` again. -/
def readdedState : bittorrent :=
  (bittorrent.addTorrent sampleEnv
    (bittorrent.deleteTorrent sampleEnv (bittorrent.pauseTorrent sampleEnv addedState "H") "H"
      false)
    "/src/a.torrent" false false none).getD sourceOnlyState

/-- A state with an empty session whose backup directory holds, for the
torrent of `sampleInfo` (name `demo`, hash `H`), both a record named after the
torrent and a record named after the hash, each with a paused marker. -/
def legacyState : bittorrent :=
  initialState
    (fun p =>
      if p = "/src/a.torrent" ∨ p = "/q/BT_backup/demo.torrent" ∨ p = "/q/BT_backup/H.torrent"
        then some "torrent-H".toList
      else if p = "/q/BT_backup/demo.paused" ∨ p = "/q/BT_backup/H.paused" then some []
      else none)
    (fun _ => true) "/dl"

/-- A state with an empty session, the torrent file of `sampleInfo` (three
files) at `/src/a.torrent`, and a priorities file for it that has two entries
instead of four, the first being 0. -/
def corruptPrioritiesState : bittorrent :=
  initialState
    (fun p =>
      if p = "/src/a.torrent" then some "torrent-H".toList
      else if p = "/q/BT_backup/H.priorities" then some "0\n".toList
      else none)
    (fun _ => true) "/dl"

/-- A state whose session holds one torrent, which is a seed. -/
def seedState : bittorrent :=
  { initialState (fun _ => none) (fun _ => true) "/dl" with
    s := [{ new_torrent sampleInfo "/dl" none true with is_seed := true }] }

end Qbt

/-! # Theorems -/

namespace Qbt

/-! ## Arithmetic and list helpers -/

theorem truncToZero_neg (q : ℚ) : truncToZero (-q) = -truncToZero q := by
  simp [truncToZero, Int.neg_tdiv]

theorem truncToZero_intCast (z : Int) : truncToZero (z : ℚ) = z := by
  simp [truncToZero]

theorem truncToZero_of_nonneg (y : ℚ) (hy : 0 ≤ y) : truncToZero y = ⌊y⌋ := by
  unfold truncToZero
  rw [Int.tdiv_eq_ediv (Rat.num_nonneg.mpr hy) (by positivity), Rat.floor_def]

theorem truncToZero_of_nonpos (y : ℚ) (hy : y ≤ 0) : truncToZero y = ⌈y⌉ := by
  have h := truncToZero_of_nonneg (-y) (by linarith)
  rw [truncToZero_neg, Int.floor_neg] at h
  exact neg_injective h

theorem roundHalfEven_intCast (z : Int) : roundHalfEven (z : ℚ) = z := by
  unfold roundHalfEven
  simp

theorem roundHalfEven_err (q : ℚ) : |(roundHalfEven q : ℚ) - q| ≤ 1 / 2 := by
  unfold roundHalfEven
  have h1 := Int.floor_le q
  have h2 := Int.lt_floor_add_one q
  rw [abs_le]
  split_ifs with a b c
  · constructor <;> linarith
  · push_cast; constructor <;> linarith
  · constructor <;> linarith
  · push_cast; constructor <;> linarith

/-- An integer of magnitude below `2^53` scaled by a power of two is a
`double`: converting it is exact. -/
theorem roundDouble_dyadic (n z : Int) (h : |n| < 2 ^ 53) :
    roundDouble ((n : ℚ) * (2 : ℚ) ^ z) = (n : ℚ) * (2 : ℚ) ^ z := by
  unfold roundDouble
  have hz : (0 : ℚ) < (2 : ℚ) ^ z := by positivity
  by_cases h0 : (n : ℚ) * (2 : ℚ) ^ z = 0
  · simp [h0]
  · rw [if_neg h0]
    have hpos : (0 : ℚ) < |(n : ℚ) * (2 : ℚ) ^ z| := abs_pos.mpr h0
    have hlt : |(n : ℚ) * (2 : ℚ) ^ z| < ((2 : ℕ) : ℚ) ^ (53 + z) := by
      have h1 : |(n : ℚ)| < (2 : ℚ) ^ (53 : ℤ) := by
        have h2 : ((|n| : Int) : ℚ) < ((2 ^ 53 : Int) : ℚ) := by exact_mod_cast h
        rw [Int.cast_abs] at h2
        norm_num at h2 ⊢
        exact h2
      have e : ((2 : ℕ) : ℚ) ^ (53 + z) = (2 : ℚ) ^ (53 : ℤ) * (2 : ℚ) ^ z := by
        rw [Nat.cast_ofNat, zpow_add₀ (by norm_num)]
      rw [abs_mul, abs_of_pos hz, e]
      exact mul_lt_mul_of_pos_right h1 hz
    have he : Int.log 2 |(n : ℚ) * (2 : ℚ) ^ z| < 53 + z :=
      (Int.lt_zpow_iff_log_lt (by norm_num) hpos).mp hlt
    obtain ⟨j, hj⟩ : ∃ j : ℕ, Int.log 2 |(n : ℚ) * (2 : ℚ) ^ z| - 52 = z - (j : ℤ) :=
      ⟨(z + 52 - Int.log 2 |(n : ℚ) * (2 : ℚ) ^ z|).toNat, by omega⟩
    rw [hj, zpow_sub₀ (by norm_num), zpow_natCast]
    have e : (n : ℚ) * (2 : ℚ) ^ z / ((2 : ℚ) ^ z / 2 ^ j) = ((n * 2 ^ j : Int) : ℚ) := by
      push_cast; field_simp; ring
    rw [e, roundHalfEven_intCast]
    push_cast
    field_simp
    ring

theorem roundDouble_intCast (n : Int) (h : |n| < 2 ^ 53) : roundDouble (n : ℚ) = n := by
  have := roundDouble_dyadic n 0 h
  simpa using this

theorem roundDouble_err (q : ℚ) (hq : q ≠ 0) :
    |roundDouble q - q| ≤ (2 : ℚ) ^ (Int.log 2 |q| - 52) / 2 := by
  unfold roundDouble
  rw [if_neg hq]
  have hu : (0 : ℚ) < (2 : ℚ) ^ (Int.log 2 |q| - 52) := by positivity
  have := roundHalfEven_err (q / (2 : ℚ) ^ (Int.log 2 |q| - 52))
  have e : (roundHalfEven (q / (2 : ℚ) ^ (Int.log 2 |q| - 52)) : ℚ)
        * (2 : ℚ) ^ (Int.log 2 |q| - 52) - q
      = ((roundHalfEven (q / (2 : ℚ) ^ (Int.log 2 |q| - 52)) : ℚ)
          - q / (2 : ℚ) ^ (Int.log 2 |q| - 52))
        * (2 : ℚ) ^ (Int.log 2 |q| - 52) := by
    field_simp
  rw [e, abs_mul, abs_of_pos hu]
  calc _ ≤ (1 / 2 : ℚ) * (2 : ℚ) ^ (Int.log 2 |q| - 52) :=
        mul_le_mul_of_nonneg_right this hu.le
    _ = _ := by ring

theorem roundDouble_near (x : ℚ) (hx0 : x ≠ 0) (hx : |x| < 2 ^ 50) :
    |roundDouble x - x| ≤ 1 / 16 := by
  have herr := roundDouble_err x hx0
  have hpos : (0 : ℚ) < |x| := abs_pos.mpr hx0
  have hlt : |x| < ((2 : ℕ) : ℚ) ^ (50 : ℤ) := by
    norm_num at hx ⊢
    exact hx
  have he : Int.log 2 |x| < 50 := (Int.lt_zpow_iff_log_lt (by norm_num) hpos).mp hlt
  have hu : (2 : ℚ) ^ (Int.log 2 |x| - 52) ≤ (2 : ℚ) ^ (-3 : ℤ) :=
    zpow_le_zpow_right₀ (by norm_num) (by omega)
  have e3 : (2 : ℚ) ^ (-3 : ℤ) = 1 / 8 := by norm_num
  rw [e3] at hu
  linarith

theorem quotient_window (k : Nat) (hk1 : 1 ≤ k) (hk8 : k ≤ 8) (x y q r M : ℚ)
    (hxk : x * (k : ℚ) = M) (hdm : (k : ℚ) * q + r = M) (hr1 : 1 ≤ r) (hr2 : r ≤ (k : ℚ) - 1)
    (n1 : -(1 / 16) ≤ y - x) (n2 : y - x ≤ 1 / 16) :
    q + 1 / 16 ≤ y ∧ y ≤ q + 15 / 16 := by
  interval_cases k <;> norm_num at hxk hdm hr2 <;> constructor <;> linarith

/-- Dividing an integer below `2^50` in magnitude by a count between 1 and 8
in `double` arithmetic and truncating gives the truncating integer quotient. -/
theorem truncToZero_roundDouble_div (m : Int) (k : Nat) (hk1 : 1 ≤ k) (hk8 : k ≤ 8)
    (hm : |m| < 2 ^ 50) :
    truncToZero (roundDouble ((m : ℚ) / (k : ℚ))) = Int.tdiv m k := by
  have hkq : (0 : ℚ) < (k : ℚ) := by exact_mod_cast hk1
  by_cases hd : (k : Int) ∣ m
  · obtain ⟨c, rfl⟩ := hd
    have e : (((k : Int) * c : Int) : ℚ) / (k : ℚ) = (c : ℚ) := by
      push_cast; field_simp
    have hc : |c| < 2 ^ 53 := by
      rw [abs_mul] at hm
      have hk2 : (1 : Int) ≤ |(k : Int)| := by
        rw [abs_of_nonneg (by positivity)]; exact_mod_cast hk1
      have : |c| ≤ |(k : Int)| * |c| := le_mul_of_one_le_left (abs_nonneg c) hk2
      omega
    rw [e, roundDouble_intCast c hc, truncToZero_intCast,
      Int.mul_tdiv_cancel_left _ (by exact_mod_cast (by omega : k ≠ 0))]
  · have hm0 : m ≠ 0 := by
      rintro rfl
      exact hd (dvd_zero _)
    have hx0 : (m : ℚ) / (k : ℚ) ≠ 0 := by
      apply div_ne_zero
      · exact_mod_cast hm0
      · exact hkq.ne.symm
    have hxlt : |(m : ℚ) / (k : ℚ)| < 2 ^ 50 := by
      rw [abs_div, abs_of_pos hkq]
      have h1 : |(m : ℚ)| < 2 ^ 50 := by
        have : ((|m| : Int) : ℚ) < ((2 ^ 50 : Int) : ℚ) := by exact_mod_cast hm
        rw [Int.cast_abs] at this
        norm_num at this ⊢
        exact this
      have h2 : (1 : ℚ) ≤ (k : ℚ) := by exact_mod_cast hk1
      calc |(m : ℚ)| / (k : ℚ) ≤ |(m : ℚ)| / 1 :=
            div_le_div_of_nonneg_left (abs_nonneg _) (by norm_num) h2
        _ = |(m : ℚ)| := by simp
        _ < 2 ^ 50 := h1
    have hnear := roundDouble_near _ hx0 hxlt
    rw [abs_le] at hnear
    obtain ⟨n1, n2⟩ := hnear
    have hxk : (m : ℚ) / (k : ℚ) * (k : ℚ) = (m : ℚ) := by field_simp
    rcases lt_or_gt_of_ne hm0 with hneg | hpos
    · have hr0 : (-m) % (k : Int) ≠ 0 := by
        intro h
        exact hd ((Int.dvd_neg).mp (Int.dvd_of_emod_eq_zero h))
      have hr1 : 0 ≤ (-m) % (k : Int) := Int.emod_nonneg _ (by omega)
      have hr2 : (-m) % (k : Int) < (k : Int) := Int.emod_lt_of_pos _ (by omega)
      have hdm := Int.ediv_add_emod (-m) (k : Int)
      have hdmq : (k : ℚ) * (((-m) / (k : Int) : Int) : ℚ)
          + (((-m) % (k : Int) : Int) : ℚ) = -(m : ℚ) := by
        have := congrArg (fun z : Int => (z : ℚ)) hdm
        simpa using this
      have hr1q : (1 : ℚ) ≤ (((-m) % (k : Int) : Int) : ℚ) := by
        exact_mod_cast (by omega : 1 ≤ (-m) % (k : Int))
      have hr2q : (((-m) % (k : Int) : Int) : ℚ) ≤ (k : ℚ) - 1 := by
        have : (-m) % (k : Int) ≤ (k : Int) - 1 := by omega
        exact_mod_cast this
      have hq0 : 0 ≤ (-m) / (k : Int) := Int.ediv_nonneg (by omega) (by omega)
      have hq0q : (0 : ℚ) ≤ (((-m) / (k : Int) : Int) : ℚ) := by exact_mod_cast hq0
      have htd : Int.tdiv m k = -((-m) / (k : Int)) := by
        have := Int.tdiv_eq_ediv (by omega : 0 ≤ -m) (by omega : 0 ≤ (k : Int))
        rw [Int.neg_tdiv] at this
        omega
      rw [htd]
      obtain ⟨w1, w2⟩ := quotient_window k hk1 hk8 (-((m : ℚ) / (k : ℚ)))
        (-(roundDouble ((m : ℚ) / (k : ℚ)))) _ _ (-(m : ℚ)) (by rw [neg_mul, hxk]) hdmq hr1q hr2q
        (by linarith) (by linarith)
      have hy0 : roundDouble ((m : ℚ) / (k : ℚ)) ≤ 0 := by linarith
      rw [truncToZero_of_nonpos _ hy0, Int.ceil_eq_iff]
      push_cast
      constructor <;> linarith
    · have hr0 : m % (k : Int) ≠ 0 := by
        intro h
        exact hd (Int.dvd_of_emod_eq_zero h)
      have hr1 : 0 ≤ m % (k : Int) := Int.emod_nonneg _ (by omega)
      have hr2 : m % (k : Int) < (k : Int) := Int.emod_lt_of_pos _ (by omega)
      have hdm := Int.ediv_add_emod m (k : Int)
      have hdmq : (k : ℚ) * ((m / (k : Int) : Int) : ℚ)
          + ((m % (k : Int) : Int) : ℚ) = (m : ℚ) := by
        have := congrArg (fun z : Int => (z : ℚ)) hdm
        simpa using this
      have hr1q : (1 : ℚ) ≤ ((m % (k : Int) : Int) : ℚ) := by
        exact_mod_cast (by omega : 1 ≤ m % (k : Int))
      have hr2q : ((m % (k : Int) : Int) : ℚ) ≤ (k : ℚ) - 1 := by
        have : m % (k : Int) ≤ (k : Int) - 1 := by omega
        exact_mod_cast this
      have hq0 : 0 ≤ m / (k : Int) := Int.ediv_nonneg (by omega) (by omega)
      have hq0q : (0 : ℚ) ≤ ((m / (k : Int) : Int) : ℚ) := by exact_mod_cast hq0
      have htd : Int.tdiv m k = m / (k : Int) :=
        Int.tdiv_eq_ediv (by omega) (by omega)
      rw [htd]
      obtain ⟨w1, w2⟩ := quotient_window k hk1 hk8 ((m : ℚ) / (k : ℚ))
        (roundDouble ((m : ℚ) / (k : ℚ))) _ _ (m : ℚ) hxk hdmq hr1q hr2q n1 n2
      have hy0 : 0 ≤ roundDouble ((m : ℚ) / (k : ℚ)) := by linarith
      rw [truncToZero_of_nonneg _ hy0, Int.floor_eq_iff]
      constructor <;> linarith

/-- A value that fits a 32-bit `long` is kept by a `long` of at least 32
bits. -/
theorem wrapLong_of_fits (bits : Nat) (hb : 32 ≤ bits) (x : Int) (hx : x.natAbs < 2 ^ 31) :
    wrapLong bits x = x := by
  unfold wrapLong
  obtain ⟨b, rfl⟩ : ∃ b, bits = b + 1 := ⟨bits - 1, by omega⟩
  have hp : (2 : Int) ^ 31 ≤ 2 ^ b := pow_le_pow_right₀ (by norm_num) (by omega)
  have e : (2 : Int) ^ (b + 1) = 2 * 2 ^ b := by ring
  simp only [Nat.add_sub_cancel]
  rw [Int.emod_eq_of_lt (by omega) (by omega)]
  ring

/-- The `long` sum of a window whose magnitudes add up to less than `2^31` is
the exact sum. -/
theorem foldl_wrapLong_eq_sum (bits : Nat) (hb : 32 ≤ bits) (l : List Int) (a : Int)
    (h : a.natAbs + (l.map Int.natAbs).sum < 2 ^ 31) :
    l.foldl (fun acc val => wrapLong bits (acc + val)) a = a + l.sum := by
  induction l generalizing a with
  | nil => simp
  | cons x xs ih =>
    simp only [List.map_cons, List.sum_cons, List.foldl_cons] at h ⊢
    have hax := Int.natAbs_add_le a x
    rw [wrapLong_of_fits bits hb (a + x) (by omega), ih (a + x) (by omega)]
    ring

theorem natAbs_sum_le (l : List Int) : l.sum.natAbs ≤ (l.map Int.natAbs).sum := by
  induction l with
  | nil => simp
  | cons x xs ih =>
    simp only [List.map_cons, List.sum_cons]
    have := Int.natAbs_add_le x xs.sum
    omega

theorem natAbs_tdiv_le (m : Int) (k : Nat) : (Int.tdiv m k).natAbs ≤ m.natAbs := by
  rw [Int.natAbs_tdiv]
  exact Nat.div_le_self _ _

/-- Evicting the oldest of eight samples and appending keeps the last eight. -/
theorem lastN_push (ss : List Int) (v : Int) :
    (if (lastN 8 ss).length = 8 then (lastN 8 ss).tail else lastN 8 ss) ++ [v]
      = lastN 8 (ss ++ [v]) := by
  unfold lastN
  by_cases h : 8 ≤ ss.length
  · have h1 : (List.drop (ss.length - 8) ss).length = 8 := by simp; omega
    rw [if_pos h1, List.tail_drop, List.length_append, List.length_singleton,
      List.drop_append_of_le_length (by omega)]
    congr 2
    omega
  · have h1 : (List.drop (ss.length - 8) ss).length ≠ 8 := by simp; omega
    rw [if_neg h1]
    have e1 : ss.length - 8 = 0 := by omega
    have e2 : (ss ++ [v]).length - 8 = 0 := by simp; omega
    rw [e1, e2]; simp

theorem lastN_length {α : Type} (n : Nat) (l : List α) :
    (lastN n l).length = min l.length n := by
  unfold lastN; simp; omega

namespace bittorrent

/-! ## ETA window -/

/-- On a window of one to eight samples whose magnitudes add up to less than
`2^31`, with a `long` of at least 32 bits, the published mean is the exact sum
divided by the count, truncated toward zero. -/
theorem windowMean_eq (env : Env) (hb : 32 ≤ env.long_bits) (l : List Int)
    (hl1 : 1 ≤ l.length) (hl8 : l.length ≤ 8) (hs : (l.map Int.natAbs).sum < 2 ^ 31) :
    windowMean env l = Int.tdiv l.sum l.length := by
  have hsum := natAbs_sum_le l
  unfold windowMean castLong divDouble
  rw [foldl_wrapLong_eq_sum _ hb l 0 (by simpa using hs), zero_add,
    roundDouble_intCast l.sum (by rw [Int.abs_eq_natAbs]; omega),
    roundDouble_intCast (l.length : Int) (by rw [Int.abs_eq_natAbs]; simp; omega),
    Int.cast_natCast, truncToZero_roundDouble_div l.sum l.length hl1 hl8
      (by rw [Int.abs_eq_natAbs]; omega)]
  exact wrapLong_of_fits _ hb _ (by have := natAbs_tdiv_le l.sum l.length; omega)

theorem tickSamples_cons (env : Env) (id : String) (h : torrent_handle)
    (hs : List torrent_handle) :
    tickSamples env id (h :: hs) = tickSamples env id [h] ++ tickSamples env id hs := by
  unfold tickSamples
  rw [← List.map_append, ← List.filter_append]
  rfl

theorem EtaInv_handle (env : Env) (st : bittorrent) (id : String) (ss : List Int)
    (h : torrent_handle) (inv : EtaInv env st id ss) :
    EtaInv env (updateETAs_handle env st h) id (ss ++ tickSamples env id [h]) := by
  obtain ⟨hw, he⟩ := inv
  unfold updateETAs_handle
  by_cases hv : h.is_valid = true
  · by_cases hr : h.download_payload_rate = 0
    · have : tickSamples env id [h] = [] := by simp [tickSamples, hr]
      simp only [hv, hr, this, List.append_nil, if_true, ne_eq, not_true, if_false]
      exact ⟨hw, he⟩
    · by_cases hid : h.info_hash = id
      · have hs : tickSamples env id [h] = [etaSample env h] := by
          simp [tickSamples, hr, hv, hid]
        simp only [hv, hr, hs, if_true, ne_eq, not_false_eq_true, ETAS_MAX_VALUES]
        have hw2 : (st.ETAstats h.info_hash).getD [] = lastN 8 ss := by
          rw [hid]; exact hw
        rw [hw2, lastN_push]
        refine ⟨?_, fun _ => ?_⟩
        · simp [etaWindow, qhash_set, hid]
        · simp only [qhash_set, hid, if_true]
          rfl
      · have hs : tickSamples env id [h] = [] := by
          simp [tickSamples, hid]
        have hid2 : ¬ id = h.info_hash := fun e => hid e.symm
        simp only [hv, hr, hs, if_true, ne_eq, not_false_eq_true, List.append_nil]
        refine ⟨?_, fun hne => ?_⟩
        · simpa [etaWindow, qhash_set, hid2] using hw
        · simpa [qhash_set, hid2] using he hne
  · have : tickSamples env id [h] = [] := by simp [tickSamples, hv]
    simp only [hv, this, List.append_nil, if_false]
    exact ⟨hw, he⟩

theorem EtaInv_foldl (env : Env) (hs : List torrent_handle) (st : bittorrent) (id : String)
    (ss : List Int) (inv : EtaInv env st id ss) :
    EtaInv env (hs.foldl (updateETAs_handle env) st) id (ss ++ tickSamples env id hs) := by
  induction hs generalizing st ss with
  | nil => simpa [tickSamples] using inv
  | cons h hs ih =>
    rw [tickSamples_cons, ← List.append_assoc]
    exact ih _ _ (EtaInv_handle env st id ss h inv)

theorem EtaInv_ticks (env : Env) (ticks : List (List torrent_handle)) (st : bittorrent)
    (id : String) (ss : List Int) (inv : EtaInv env st id ss) :
    EtaInv env (etaTicks env st ticks) id (ss ++ samplesOf env id ticks) := by
  induction ticks generalizing st ss with
  | nil => simpa [samplesOf, etaTicks] using inv
  | cons snap ticks ih =>
    have step : EtaInv env (etaTick env st snap) id (ss ++ tickSamples env id snap) :=
      EtaInv_foldl env snap { st with s := snap } id ss inv
    have := ih (etaTick env st snap) (ss ++ tickSamples env id snap) step
    simpa [samplesOf, etaTicks, List.append_assoc] using this

/-- After ticks that produced at least one sample for `id`, starting with no
window, `getETA id` is the mean `updateETAs` computes on the last eight
samples. -/
theorem getETA_eq_windowMean (env : Env) (st : bittorrent) (id : String)
    (ticks : List (List torrent_handle)) (hfresh : st.ETAstats id = none)
    (hne : samplesOf env id ticks ≠ []) :
    getETA (etaTicks env st ticks) id = windowMean env (lastN 8 (samplesOf env id ticks)) := by
  have inv0 : EtaInv env st id [] := by
    refine ⟨?_, fun h => absurd rfl h⟩
    simp [etaWindow, hfresh, lastN]
  have inv := EtaInv_ticks env ticks st id [] inv0
  rw [List.nil_append] at inv
  simp [getETA, inv.2 hne]

/-- The sample of a torrent whose remaining bytes are `q * r` at the integer
rate `r`, all magnitudes small: the quotient `q`. -/
theorem etaSample_exact (env : Env) (hb : 32 ≤ env.long_bits) (hash : String)
    (size done : Int) (r : Nat) (q : Int) (hr : 0 < r) (hr2 : r < 2 ^ 53)
    (hq : size - done = q * r) (hrem : |size - done| < 2 ^ 53) (hq2 : q.natAbs < 2 ^ 31) :
    etaSample env (sampleHandle hash size done (r : ℚ)) = q := by
  unfold etaSample castLong divDouble
  have e1 : (sampleHandle hash size done (r : ℚ)).info.total_size
      - (sampleHandle hash size done (r : ℚ)).total_done = size - done := by
    simp [sampleHandle, torrent_info.total_size]
  have e2 : (sampleHandle hash size done (r : ℚ)).download_payload_rate = ((r : Int) : ℚ) := by
    simp [sampleHandle]
  have hrq : (r : ℚ) ≠ 0 := by exact_mod_cast hr.ne.symm
  rw [e1, e2, roundDouble_intCast _ hrem,
    roundDouble_intCast (r : Int) (by rw [Int.abs_eq_natAbs]; simp; omega), hq]
  have e3 : ((q * (r : Int) : Int) : ℚ) / ((r : Int) : ℚ) = (q : ℚ) := by
    push_cast; field_simp
  rw [e3, roundDouble_intCast q (by rw [Int.abs_eq_natAbs]; omega), truncToZero_intCast]
  exact wrapLong_of_fits _ hb _ hq2

theorem tickSamples_single (env : Env) (id : String) (h : torrent_handle)
    (hv : h.is_valid = true) (hid : h.info_hash = id) (hr : h.download_payload_rate ≠ 0) :
    tickSamples env id [h] = [etaSample env h] := by
  simp [tickSamples, hv, hid, hr]

end bittorrent

end Qbt

namespace Qbt

/-! ## Session helpers -/

theorem find_torrent_info_hash (s : List torrent_handle) (hash : String)
    (hv : (find_torrent s hash).is_valid = true) :
    (find_torrent s hash).info.info_hash = hash := by
  unfold find_torrent at hv ⊢
  cases hf : s.find? (fun h => h.is_valid && decide (h.info_hash = hash)) with
  | none => rw [hf] at hv; simp [invalid_handle] at hv
  | some h =>
    have := List.find?_some hf
    simp [torrent_handle.info_hash] at this
    simpa using this.2

theorem find_torrent_modify (s : List torrent_handle) (hash : String)
    (f : torrent_handle → torrent_handle)
    (hf : ∀ t, (f t).is_valid = t.is_valid ∧ (f t).info_hash = t.info_hash) (k : String) :
    find_torrent (modify_torrent s hash f) k
      = if k = hash ∧ (find_torrent s k).is_valid = true then f (find_torrent s k)
        else find_torrent s k := by
  have hcomp : ((fun h : torrent_handle => h.is_valid && decide (h.info_hash = k)) ∘
      fun t => if (t.is_valid && decide (t.info_hash = hash)) = true then f t else t)
      = fun h : torrent_handle => h.is_valid && decide (h.info_hash = k) := by
    funext t
    simp only [Function.comp]
    split
    · rw [(hf t).1, (hf t).2]
    · rfl
  unfold find_torrent modify_torrent
  rw [List.find?_map, hcomp]
  cases hfind : s.find? (fun h => h.is_valid && decide (h.info_hash = k)) with
  | none => simp [invalid_handle]
  | some h =>
    have hp := List.find?_some hfind
    simp only [Bool.and_eq_true, decide_eq_true_eq] at hp
    simp only [Option.map_some']
    by_cases hk : k = hash
    · subst hk
      simp [hp.1, hp.2]
    · have : ¬ h.info_hash = hash := fun e => hk (by rw [← hp.2, e])
      simp [hk, this]

theorem range_foldl_snoc {α : Type} (g : Nat → α) (n : Nat) :
    (List.range n).foldl (fun v i => v ++ [g i]) [] = (List.range n).map g := by
  induction n with
  | zero => rfl
  | succ n ih => rw [List.range_succ, List.foldl_append, ih]; simp

theorem clampPriority_range (p : Int) : 0 ≤ clampPriority p ∧ clampPriority p ≤ 7 := by
  unfold clampPriority
  split <;> omega

theorem clampPriority_eq (p : Int) :
    clampPriority p = if 0 ≤ p ∧ p ≤ 7 then p else 1 := by
  unfold clampPriority
  by_cases h : p < 0 ∨ p > 7
  · have : ¬ (0 ≤ p ∧ p ≤ 7) := by omega
    simp [h, this]
  · have : 0 ≤ p ∧ p ≤ 7 := by omega
    simp [h, this]

theorem clampPriority_ne_zero (p : Int) : clampPriority p ≠ 0 ↔ p ≠ 0 := by
  unfold clampPriority
  split <;> omega

theorem range_foldl_cond (P : List Char → Prop) [DecidablePred P] (fs : List Int) :
    ∀ (es : List (List Char)) (a : Int), fs.length ≤ es.length →
      (List.range fs.length).foldl
          (fun acc i => if P (es.getD i []) then acc + fs.getD i 0 else acc) a
        = a + (((fs.zip es).filter (fun p => decide (P p.2))).map Prod.fst).sum := by
  induction fs with
  | nil => intro es a _; simp
  | cons f fs ih =>
    intro es a hle
    cases es with
    | nil => simp at hle
    | cons e es =>
      simp only [List.length_cons, Nat.add_le_add_iff_right] at hle
      rw [List.length_cons, List.range_succ_eq_map, List.foldl_cons, List.foldl_map]
      simp only [List.getD_cons_zero, List.getD_cons_succ, List.zip_cons_cons]
      rw [ih es _ hle]
      by_cases hp : P e
      · simp [hp, List.filter_cons, add_assoc]
      · simp [hp, List.filter_cons]

namespace bittorrent

/-! ## Priorities file -/

/-- C5: for a valid handle and a priorities file whose number of
newline-separated entries differs from `fileCount + 1`, whatever the entries
are, `torrentEffectiveSize` returns the total size of the torrent. -/
theorem C5_effective_size_corrupt (env : Env) (st : bittorrent) (hash : String)
    (content : List Char)
    (hv : (find_torrent st.s hash).is_valid = true)
    (hfile : st.fs (backupFile env (hash ++ ".priorities")) = some content)
    (hlen : (splitOn '\n' content).length ≠ (find_torrent st.s hash).info.num_files + 1) :
    torrentEffectiveSize env st hash = (find_torrent st.s hash).info.total_size := by
  simp [torrentEffectiveSize, getTorrentHandle, hv, hfile, hlen]

/-- Witness for C5: three files of total size 60 and a priorities file of
three entries, two of them 0. -/
theorem C5_effective_size_corrupt_witness :
    torrentEffectiveSize sampleEnv
      { sampleState with fs := fun _ => some "0\n0\n".toList } "H" = 60 :=
  C5_effective_size_corrupt sampleEnv
    { sampleState with fs := fun _ => some "0\n0\n".toList } "H" "0\n0\n".toList
    (by decide) (by decide) (by decide)

end bittorrent
end Qbt

namespace Qbt

/-! ## Text helpers -/

theorem splitOn_ne_nil (sep : Char) (l : List Char) : splitOn sep l ≠ [] := by
  induction l with
  | nil => simp [splitOn]
  | cons c cs ih =>
    unfold splitOn
    split
    · simp
    · split <;> simp

theorem splitOn_append_sep (sep : Char) (a b : List Char) (ha : sep ∉ a) :
    splitOn sep (a ++ sep :: b) = a :: splitOn sep b := by
  induction a with
  | nil => simp [splitOn]
  | cons c cs ih =>
    have hc : ¬ c = sep := fun e => ha (by simp [e])
    have hcs : sep ∉ cs := fun h => ha (by simp [h])
    show splitOn sep (c :: (cs ++ sep :: b)) = _
    rw [splitOn, if_neg hc, ih hcs]

theorem splitOn_no_sep (sep : Char) (a : List Char) (ha : sep ∉ a) :
    splitOn sep a = [a] := by
  induction a with
  | nil => simp [splitOn]
  | cons c cs ih =>
    have hc : ¬ c = sep := fun e => ha (by simp [e])
    have hcs : sep ∉ cs := fun h => ha (by simp [h])
    simp only [splitOn, hc, if_false]
    rw [ih hcs]

theorem c_str_eq_self (l : List Char) (h : '\x00' ∉ l) : c_str l = l := by
  unfold c_str
  rw [List.takeWhile_eq_self_iff]
  intro c hc
  simp only [ne_eq, decide_eq_true_eq]
  intro e; exact h (e ▸ hc)

theorem digitChar_isDigit (d : Nat) (hd : d < 10) : (Nat.digitChar d).isDigit = true := by
  interval_cases d <;> decide

theorem digitVal_digitChar (d : Nat) (hd : d < 10) : digitVal (Nat.digitChar d) = some d := by
  interval_cases d <;> decide

theorem toDigitsCore_isDigit (fuel : Nat) : ∀ (n : Nat) (ds : List Char),
    (∀ c ∈ ds, c.isDigit = true) → ∀ c ∈ Nat.toDigitsCore 10 fuel n ds, c.isDigit = true := by
  induction fuel with
  | zero => intro n ds h; simpa [Nat.toDigitsCore] using h
  | succ fuel ih =>
    intro n ds h
    have hd : ∀ c ∈ Nat.digitChar (n % 10) :: ds, c.isDigit = true := by
      intro c hc
      rcases List.mem_cons.mp hc with e | e
      · rw [e]; exact digitChar_isDigit _ (Nat.mod_lt _ (by decide))
      · exact h c e
    simp only [Nat.toDigitsCore]
    split
    · exact hd
    · exact ih _ _ hd

theorem toDigitsCore_ne_nil (fuel : Nat) : ∀ (n : Nat) (ds : List Char),
    ds ≠ [] → Nat.toDigitsCore 10 fuel n ds ≠ [] := by
  induction fuel with
  | zero => intro n ds h; simpa [Nat.toDigitsCore] using h
  | succ fuel ih =>
    intro n ds _
    simp only [Nat.toDigitsCore]
    split
    · simp
    · exact ih _ _ (by simp)

theorem parseDigits_toDigitsCore (fuel : Nat) : ∀ (n : Nat) (ds : List Char),
    n < fuel → parseDigits (Nat.toDigitsCore 10 fuel n ds) 0 = parseDigits ds n := by
  induction fuel with
  | zero => intro n ds h; omega
  | succ fuel ih =>
    intro n ds h
    simp only [Nat.toDigitsCore]
    split
    · rename_i h0
      simp only [parseDigits, digitVal_digitChar _ (Nat.mod_lt n (by decide : 0 < 10))]
      congr 1
      omega
    · rename_i h0
      rw [ih (n / 10) _ (by omega)]
      simp only [parseDigits, digitVal_digitChar _ (Nat.mod_lt n (by decide : 0 < 10))]
      congr 1
      omega

theorem toString_isDigit (i : Nat) : ∀ c ∈ misc.toString i, c.isDigit = true :=
  toDigitsCore_isDigit _ _ _ (by simp)

theorem isDigit_facts (c : Char) (h : c.isDigit = true) :
    c ≠ '|' ∧ c ≠ '\n' ∧ c ≠ '\x00' ∧ c ≠ '-' ∧ c ≠ '+' ∧ isSpace c = false := by
  refine ⟨?_, ?_, ?_, ?_, ?_, ?_⟩
  · rintro rfl; exact absurd h (by decide)
  · rintro rfl; exact absurd h (by decide)
  · rintro rfl; exact absurd h (by decide)
  · rintro rfl; exact absurd h (by decide)
  · rintro rfl; exact absurd h (by decide)
  · by_contra hs
    simp only [isSpace, Bool.or_eq_true, decide_eq_true_eq, Bool.not_eq_false] at hs
    rcases hs with ((((rfl | rfl) | rfl) | rfl) | rfl) | rfl <;> exact absurd h (by decide)

theorem dropWhile_isSpace_self (l : List Char) (h : ∀ c ∈ l, isSpace c = false) :
    l.dropWhile isSpace = l := by
  cases l with
  | nil => rfl
  | cons c cs => simp [List.dropWhile, h c (by simp)]

theorem trimmedChars_self (l : List Char) (h : ∀ c ∈ l, isSpace c = false) :
    trimmedChars l = l := by
  unfold trimmedChars
  rw [dropWhile_isSpace_self l h, dropWhile_isSpace_self _ (by simpa using h), List.reverse_reverse]

theorem toInt_toString (i : Nat) (hi : i ≤ 2147483647) : toInt (misc.toString i) = (i : Int) := by
  have hd := toString_isDigit i
  have hne : misc.toString i ≠ [] := by
    unfold misc.toString Nat.toDigits
    simp only [Nat.toDigitsCore]
    split
    · simp
    · exact toDigitsCore_ne_nil _ _ _ (by simp)
  have hp : parseDigits (misc.toString i) 0 = some i := by
    unfold misc.toString Nat.toDigits
    rw [parseDigits_toDigitsCore _ _ _ (by omega)]
    rfl
  unfold toInt
  rw [trimmedChars_self _ (fun c hc => (isDigit_facts c (hd c hc)).2.2.2.2.2)]
  cases hl : misc.toString i with
  | nil => exact absurd hl hne
  | cons c cs =>
    rw [hl] at hp hd
    have hc := isDigit_facts c (hd c (by simp))
    have h1 : ¬ c = '-' := hc.2.2.2.1
    have h2 : ¬ c = '+' := hc.2.2.2.2.1
    split
    · rename_i heq; simp at heq; exact absurd heq.1 h1
    · rename_i heq; simp at heq; exact absurd heq.1 h2
    · simp only [parseNat, hp, Option.map_some']
      have : (-2147483648 : Int) ≤ (i : Int) ∧ (i : Int) ≤ 2147483647 := by omega
      simp [this]


/-! ## Tracker file -/

theorem c_str_no_nul (l : List Char) : '\x00' ∉ c_str l := by
  intro h
  have := List.mem_takeWhile_imp h
  simp at this

theorem trackerLines_no_nul (L : List announce_entry) :
    ∀ i, '\x00' ∉ bittorrent.trackerLines i L := by
  induction L with
  | nil => intro i; simp [bittorrent.trackerLines]
  | cons t ts ih =>
    intro i
    simp only [bittorrent.trackerLines, List.mem_append, List.mem_singleton, not_or]
    refine ⟨⟨⟨⟨c_str_no_nul _, by decide⟩, ?_⟩, by decide⟩, ih _⟩
    intro h
    exact (isDigit_facts _ (toString_isDigit i _ h)).2.2.1 rfl

theorem parse_trackerLines (L : List announce_entry) :
    ∀ i, (∀ t ∈ L, plainUrl t.url) → i + L.length ≤ 2147483648 →
      bittorrent.parseTrackerLines (splitOn '\n' (bittorrent.trackerLines i L))
        = tiersByPosition i L := by
  induction L with
  | nil =>
    intro i _ _
    simp [bittorrent.trackerLines, splitOn, bittorrent.parseTrackerLines, tiersByPosition]
  | cons t ts ih =>
    intro i hurl hlen
    obtain ⟨hnul, hbar, hnl⟩ := hurl t (by simp)
    simp only [List.length_cons] at hlen
    have hdig := toString_isDigit i
    have hbar2 : '|' ∉ misc.toString i := fun h => (isDigit_facts _ (hdig _ h)).1 rfl
    have hnl2 : '\n' ∉ t.url ++ '|' :: misc.toString i := by
      simp only [List.mem_append, List.mem_cons, not_or]
      exact ⟨hnl, by decide, fun h => (isDigit_facts _ (hdig _ h)).2.1 rfl⟩
    have e : bittorrent.trackerLines i (t :: ts)
        = (t.url ++ '|' :: misc.toString i) ++ '\n' :: bittorrent.trackerLines (i + 1) ts := by
      simp [bittorrent.trackerLines, c_str_eq_self _ hnul]
    rw [e, splitOn_append_sep _ _ _ hnl2]
    simp only [bittorrent.parseTrackerLines]
    rw [splitOn_append_sep _ _ _ hbar, splitOn_no_sep _ _ hbar2]
    simp only [tiersByPosition]
    rw [toInt_toString i (by omega), ih (i + 1) (fun t ht => hurl t (by simp [ht])) (by omega)]

namespace bittorrent

/-- C3 (amended): for a valid handle whose tracker URLs contain no NUL, no
`|` and no line feed, `saveTrackerFile` followed by `loadTrackerFile` leaves
the engine with the same URLs in the same order, the tier of each being its
position in the list (0, 1, 2, ...) instead of its former tier;
`replace_trackers` is called, and `true` returned, exactly when the list is
not empty. -/
theorem C3_tracker_roundtrip_retiers (env : Env) (st : bittorrent) (hash : String)
    (hv : (find_torrent st.s hash).is_valid = true)
    (hurl : ∀ t ∈ (find_torrent st.s hash).trackers, plainUrl t.url)
    (hlen : (find_torrent st.s hash).trackers.length ≤ 2147483648) :
    (find_torrent (loadTrackerFile env (saveTrackerFile env st hash) hash).1.s hash).trackers
        = tiersByPosition 0 (find_torrent st.s hash).trackers
    ∧ ((loadTrackerFile env (saveTrackerFile env st hash) hash).2 = true
        ↔ (find_torrent st.s hash).trackers ≠ []) := by
  have hparse := parse_trackerLines (find_torrent st.s hash).trackers 0 hurl (by omega)
  have hfile : (saveTrackerFile env st hash).fs (backupFile env (hash ++ ".trackers"))
      = some (trackerLines 0 (find_torrent st.s hash).trackers) := by
    simp [saveTrackerFile, fs_write, getTorrentHandle]
  have hs : (saveTrackerFile env st hash).s = st.s := rfl
  unfold loadTrackerFile
  rw [hfile]
  simp only [c_str_eq_self _ (trackerLines_no_nul _ 0), hparse, hs]
  cases hL : (find_torrent st.s hash).trackers with
  | nil => simp [tiersByPosition, hs, hL]
  | cons t ts =>
    simp only [tiersByPosition, List.length_cons, ne_eq, Nat.add_one_ne_zero, not_false_eq_true,
      if_true, reduceCtorEq, iff_true]
    rw [find_torrent_modify _ _ _ ?_]
    · simp [hv]
    · exact fun t => ⟨rfl, rfl⟩

/-- Counterexample to C3: a handle with the single tracker
`http://a/announce` of tier 5; after `saveTrackerFile` and `loadTrackerFile`
the engine holds that URL with tier 0, a list different from the original. -/
theorem C3_tracker_roundtrip_counterexample :
    (find_torrent sampleState.s "H").trackers
        = [{ url := "http://a/announce".toList, tier := 5 }]
    ∧ (find_torrent
        (loadTrackerFile sampleEnv (saveTrackerFile sampleEnv sampleState "H") "H").1.s
          "H").trackers
        = [{ url := "http://a/announce".toList, tier := 0 }]
    ∧ (find_torrent
        (loadTrackerFile sampleEnv (saveTrackerFile sampleEnv sampleState "H") "H").1.s
          "H").trackers
        ≠ (find_torrent sampleState.s "H").trackers := by
  decide

/-- Witness for C3 (amended): the single tracker of `sampleState`. -/
theorem C3_tracker_roundtrip_retiers_witness :
    (find_torrent
        (loadTrackerFile sampleEnv (saveTrackerFile sampleEnv sampleState "H") "H").1.s
          "H").trackers
      = tiersByPosition 0 (find_torrent sampleState.s "H").trackers :=
  (C3_tracker_roundtrip_retiers sampleEnv sampleState "H" (by decide) (by decide)
    (by decide)).1

end bittorrent

end Qbt

namespace Qbt

/-! ## Reloading -/

theorem bittorrent.reloadWait_spec (valid : Nat → Bool) : ∀ (k t p : Nat), 6 - t = k → t ≤ 6 →
    t ≤ (bittorrent.reloadWait valid t p).1 ∧ (bittorrent.reloadWait valid t p).1 ≤ 6
    ∧ (bittorrent.reloadWait valid t p).2 = p + ((bittorrent.reloadWait valid t p).1 - t) + 1
    ∧ (∀ j, p ≤ j → j + 1 < (bittorrent.reloadWait valid t p).2 → valid j = true)
    ∧ ((bittorrent.reloadWait valid t p).1 < 6 →
        valid ((bittorrent.reloadWait valid t p).2 - 1) = false) := by
  intro k
  induction k with
  | zero =>
    intro t p hk ht
    have e : t = 6 := by omega
    subst e
    rw [bittorrent.reloadWait]
    simp
    intro j h1 h2
    omega
  | succ k ih =>
    intro t p hk ht
    rw [bittorrent.reloadWait]
    by_cases hc : (valid p && decide (t < 6)) = true
    · simp only [hc, if_true]
      obtain ⟨h1, h2, h3, h4, h5⟩ := ih (t + 1) (p + 1) (by omega) (by omega)
      refine ⟨by omega, h2, by omega, ?_, h5⟩
      intro j hj1 hj2
      by_cases e : j = p
      · subst e; simp at hc; exact hc.1
      · exact h4 j (by omega) hj2
    · simp only [hc, Bool.false_eq_true, if_false]
      refine ⟨le_refl _, ht, by omega, fun j h1 h2 => by omega, ?_⟩
      intro hlt
      simp at hc
      by_contra hv
      simp at hv
      exact absurd (hc hv) (by omega)

theorem filter_hash_modify (s : List torrent_handle) (hash k : String)
    (f : torrent_handle → torrent_handle) (hf : ∀ t, (f t).info_hash = t.info_hash) :
    ((modify_torrent s hash f).filter (fun t => decide (t.info_hash = k))).length
      = (s.filter (fun t => decide (t.info_hash = k))).length := by
  induction s with
  | nil => rfl
  | cons t ts ih =>
    unfold modify_torrent at ih ⊢
    simp only [List.map_cons, List.filter_cons]
    have e : (if (t.is_valid && decide (t.info_hash = hash)) = true then f t else t).info_hash
        = t.info_hash := by
      split
      · exact hf t
      · rfl
    rw [e]
    split
    · simp only [List.length_cons, ih]
    · exact ih

theorem filter_hash_remove (s : List torrent_handle) (h : torrent_handle) :
    (remove_torrent s h).filter (fun t => decide (t.info_hash = h.info_hash)) = [] := by
  unfold remove_torrent
  rw [List.filter_filter]
  simp

namespace bittorrent

theorem loadFilteredFiles_count (env : Env) (st : bittorrent) (hash k : String) :
    ((loadFilteredFiles env st hash).s.filter (fun t => decide (t.info_hash = k))).length
      = (st.s.filter (fun t => decide (t.info_hash = k))).length := by
  unfold loadFilteredFiles
  split
  · split <;> rfl
  · exact filter_hash_modify _ _ _ _ (fun t => rfl)

theorem count_ite_modify (p : Prop) [Decidable p] (st : bittorrent) (hash k : String)
    (f : torrent_handle → torrent_handle) (hf : ∀ t, (f t).info_hash = t.info_hash) :
    ((if p then { st with s := modify_torrent st.s hash f } else st).s.filter
        (fun t => decide (t.info_hash = k))).length
      = (st.s.filter (fun t => decide (t.info_hash = k))).length := by
  split
  · exact filter_hash_modify _ _ _ _ hf
  · rfl

theorem reloadTorrent_remove_s (env : Env) (st : bittorrent) (hash : String) :
    (reloadTorrent_remove env st hash).s
      = modify_torrent st.s hash (fun h => { h with is_paused := true }) := by
  unfold reloadTorrent_remove
  simp only
  split
  · rfl
  · split <;> rfl

theorem reloadTorrent_remove_errors (env : Env) (st : bittorrent) (hash : String) :
    (reloadTorrent_remove env st hash).errors = st.errors := by
  unfold reloadTorrent_remove
  simp only
  split
  · rfl
  · split <;> rfl

/-- The counters of `reloadTorrent` on a valid handle, in terms of the wait
loop. -/
theorem reloadTorrent_fields (env : Env) (st : bittorrent) (hash : String)
    (compact_mode : Bool) (valid : Nat → Bool)
    (hv : (find_torrent st.s hash).is_valid = true) :
    (reloadTorrent env st hash compact_mode valid).sleeps = (reloadWait valid 0 0).1
    ∧ (reloadTorrent env st hash compact_mode valid).loopPolls = (reloadWait valid 0 0).2
    ∧ (reloadTorrent env st hash compact_mode valid).polls = (reloadWait valid 0 0).2 + 1
    ∧ (reloadTorrent env st hash compact_mode valid).added
        = !valid (reloadWait valid 0 0).2 := by
  unfold reloadTorrent
  simp only [hv, Bool.not_true, Bool.false_eq_true, if_false]
  split <;> simp_all

/-- C8 (amended): in `reloadTorrent` on a valid handle of a session that holds
at most one handle for the identifier, after `remove_torrent` the wait loop
sleeps at most 6 times and its condition polls the old handle once more than
it sleeps, so at most 7 times, every poll before the last finding the handle
valid and the loop stopping at the first poll that finds it invalid; the test
after the loop is one more poll.  If that test finds the old handle still
valid, an error is reported and `add_torrent` is not called, the session
holding what it held; `add_torrent` is called exactly when that test found
the old handle invalid; and in every case the session holds at most one handle
for the identifier afterwards. -/
theorem C8_reloadTorrent_bounded_wait_no_double_add (env : Env) (st : bittorrent)
    (hash : String) (compact_mode : Bool) (valid : Nat → Bool)
    (hv : (find_torrent st.s hash).is_valid = true)
    (hone : (st.s.filter (fun t => decide (t.info_hash = hash))).length ≤ 1) :
    (reloadTorrent env st hash compact_mode valid).sleeps ≤ 6
    ∧ (reloadTorrent env st hash compact_mode valid).loopPolls
        = (reloadTorrent env st hash compact_mode valid).sleeps + 1
    ∧ (reloadTorrent env st hash compact_mode valid).polls
        = (reloadTorrent env st hash compact_mode valid).sleeps + 2
    ∧ (∀ j, j < (reloadTorrent env st hash compact_mode valid).sleeps → valid j = true)
    ∧ ((reloadTorrent env st hash compact_mode valid).sleeps < 6 →
        valid (reloadTorrent env st hash compact_mode valid).sleeps = false)
    ∧ (valid ((reloadTorrent env st hash compact_mode valid).sleeps + 1) = true →
        (reloadTorrent env st hash compact_mode valid).added = false
        ∧ (reloadTorrent env st hash compact_mode valid).state.errors = st.errors + 1
        ∧ ((reloadTorrent env st hash compact_mode valid).state.s.filter
            (fun t => decide (t.info_hash = hash))).length
          = (st.s.filter (fun t => decide (t.info_hash = hash))).length)
    ∧ ((reloadTorrent env st hash compact_mode valid).added = true ↔
        valid ((reloadTorrent env st hash compact_mode valid).sleeps + 1) = false)
    ∧ ((reloadTorrent env st hash compact_mode valid).state.s.filter
          (fun t => decide (t.info_hash = hash))).length ≤ 1 := by
  have hh : (find_torrent st.s hash).info_hash = hash := find_torrent_info_hash st.s hash hv
  obtain ⟨_, w2, w3, w4, w5⟩ := reloadWait_spec valid 6 0 0 rfl (by omega)
  have e2 : (reloadWait valid 0 0).2 = (reloadWait valid 0 0).1 + 1 := by omega
  have hkeep : ((reloadTorrent_remove env st hash).s.filter
      (fun t => decide (t.info_hash = hash))).length
      = (st.s.filter (fun t => decide (t.info_hash = hash))).length := by
    rw [reloadTorrent_remove_s]
    exact filter_hash_modify _ _ _ _ (fun t => rfl)
  have hrem : ((reloadTorrent_dropped (reloadTorrent_remove env st hash)
      (find_torrent st.s hash)).s.filter (fun t => decide (t.info_hash = hash))) = [] := by
    have := filter_hash_remove (reloadTorrent_remove env st hash).s (find_torrent st.s hash)
    rw [hh] at this
    exact this
  have herr := reloadTorrent_remove_errors env st hash
  by_cases hfin : valid (reloadWait valid 0 0).2 = true
  · have hr : reloadTorrent env st hash compact_mode valid
        = { state := { reloadTorrent_remove env st hash with
                        errors := (reloadTorrent_remove env st hash).errors + 1 },
            sleeps := (reloadWait valid 0 0).1, loopPolls := (reloadWait valid 0 0).2,
            polls := (reloadWait valid 0 0).2 + 1, added := false } := by
      unfold reloadTorrent
      simp only [hv, hfin, Bool.not_true, Bool.false_eq_true, if_false, if_true]
    rw [hr]
    dsimp only
    rw [e2] at hfin
    refine ⟨w2, e2, by omega, fun j hj => w4 j (Nat.zero_le _) (by omega), ?_,
      fun _ => ⟨rfl, by rw [herr], hkeep⟩, ⟨fun h => absurd h (by simp), fun h => ?_⟩, ?_⟩
    · intro hlt
      have := w5 hlt
      rw [e2] at this
      simpa using this
    · rw [hfin] at h
      exact absurd h (by simp)
    · rw [hkeep]
      exact hone
  · have hr : reloadTorrent env st hash compact_mode valid
        = { state := reloadTorrent_readd env
              (reloadTorrent_dropped (reloadTorrent_remove env st hash) (find_torrent st.s hash))
              (find_torrent st.s hash)
              (if (find_torrent st.s hash).has_metadata = true then
                some (env.write_resume_data { find_torrent st.s hash with is_paused := true })
              else none) compact_mode,
            sleeps := (reloadWait valid 0 0).1, loopPolls := (reloadWait valid 0 0).2,
            polls := (reloadWait valid 0 0).2 + 1, added := true } := by
      unfold reloadTorrent
      simp only [hv, hfin, Bool.not_true, Bool.false_eq_true, if_false]
    rw [hr]
    dsimp only
    rw [e2] at hfin
    refine ⟨w2, e2, by omega, fun j hj => w4 j (Nat.zero_le _) (by omega), ?_,
      fun h => absurd h hfin, ⟨fun _ => by simpa using hfin, fun _ => rfl⟩, ?_⟩
    · intro hlt
      have := w5 hlt
      rw [e2] at this
      simpa using this
    · unfold reloadTorrent_readd
      simp only [emit, hh]
      rw [count_ite_modify _ _ _ _ (fun h => { h with sequenced_download_threshold := some 15 })
          (fun t => rfl),
        count_ite_modify _ _ _ _ (fun h => { h with is_paused := true }) (fun t => rfl),
        loadFilteredFiles_count,
        filter_hash_modify _ _ _ (fun h => { h with max_uploads := some (-1) }) (fun t => rfl)]
      split
      · simp only [List.filter_append, hrem, List.nil_append]
        exact List.length_filter_le _ _
      · simp [hrem]

/-- Witness for C8 (amended): the old handle of `sampleState` becomes invalid
after two polls; the loop sleeps twice and polls three times, the test after
the loop finds the handle invalid, `add_torrent` is called and the session
holds one handle for the identifier. -/
theorem C8_reloadTorrent_bounded_wait_no_double_add_witness :
    (reloadTorrent sampleEnv sampleState "H" true (fun k => decide (k < 2))).sleeps = 2
    ∧ (reloadTorrent sampleEnv sampleState "H" true (fun k => decide (k < 2))).loopPolls = 3
    ∧ (reloadTorrent sampleEnv sampleState "H" true (fun k => decide (k < 2))).added = true
    ∧ ((reloadTorrent sampleEnv sampleState "H" true (fun k => decide (k < 2))).state.s.filter
          (fun t => decide (t.info_hash = "H"))).length ≤ 1 := by
  have hw : reloadWait (fun k => decide (k < 2)) 0 0 = (2, 3) := by
    simp [reloadWait]
  obtain ⟨h1, h2, h3, h4⟩ := reloadTorrent_fields sampleEnv sampleState "H" true
    (fun k => decide (k < 2)) (by decide)
  rw [hw] at h1 h2 h3 h4
  exact ⟨h1, h2, h4,
    (C8_reloadTorrent_bounded_wait_no_double_add sampleEnv sampleState "H" true
      (fun k => decide (k < 2)) (by decide) (by decide)).2.2.2.2.2.2.2⟩

/-- Counterexample to C8: the old handle of `sampleState` never becomes
invalid; the loop condition polls it 7 times (6 of them followed by a sleep),
which is more than 6, and the test after the loop is an eighth poll.  And when
the old handle is valid at the first 7 polls and invalid at the eighth, it was
still valid after 6 polls, yet `add_torrent` is called. -/
theorem C8_reloadTorrent_polls_counterexample :
    (reloadTorrent sampleEnv sampleState "H" true (fun _ => true)).sleeps = 6
    ∧ (reloadTorrent sampleEnv sampleState "H" true (fun _ => true)).loopPolls = 7
    ∧ (reloadTorrent sampleEnv sampleState "H" true (fun _ => true)).polls = 8
    ∧ (reloadTorrent sampleEnv sampleState "H" true (fun _ => true)).added = false
    ∧ (∀ k, k < 7 → (fun k => decide (k < 7)) k = true)
    ∧ (reloadTorrent sampleEnv sampleState "H" true (fun k => decide (k < 7))).loopPolls = 7
    ∧ (reloadTorrent sampleEnv sampleState "H" true (fun k => decide (k < 7))).added = true := by
  have hw : reloadWait (fun _ => true) 0 0 = (6, 7) := by
    simp [reloadWait]
  have hw2 : reloadWait (fun k => decide (k < 7)) 0 0 = (6, 7) := by
    simp [reloadWait]
  obtain ⟨h1, h2, h3, h4⟩ := reloadTorrent_fields sampleEnv sampleState "H" true
    (fun _ => true) (by decide)
  obtain ⟨g1, g2, g3, g4⟩ := reloadTorrent_fields sampleEnv sampleState "H" true
    (fun k => decide (k < 7)) (by decide)
  rw [hw] at h1 h2 h3
  rw [hw2] at g1 g2 g3 g4
  exact ⟨h1, h2, h3, h4, fun k hk => by simpa using hk, g2, g4⟩

end bittorrent
end Qbt

namespace Qbt

/-! ## Paths of the backup directory -/

theorem string_append_left_cancel (a b c : String) (h : a ++ b = a ++ c) : b = c := by
  have h2 := congrArg String.data h
  simp only [String.data_append] at h2
  exact String.ext (List.append_cancel_left h2)

theorem string_append_right_cancel (a b c : String) (h : a ++ c = b ++ c) : a = b := by
  have h2 := congrArg String.data h
  simp only [String.data_append] at h2
  exact String.ext (List.append_cancel_right h2)

theorem ext_tail (a : String) (ext : String) (he : ext ∈ sidecarExts) :
    ((a ++ ext).data.reverse.takeWhile (fun c => decide (c ≠ '.'))) 
      = (ext.data.drop 1).reverse := by
  simp only [sidecarExts, List.mem_cons, List.mem_singleton, List.not_mem_nil, or_false] at he
  rcases he with rfl | rfl | rfl | rfl | rfl | rfl | rfl <;>
    simp [String.data_append, List.takeWhile]

theorem ext_data (ext : String) (he : ext ∈ sidecarExts) :
    ext.data = '.' :: ext.data.drop 1 := by
  simp only [sidecarExts, List.mem_cons, List.mem_singleton, List.not_mem_nil, or_false] at he
  rcases he with rfl | rfl | rfl | rfl | rfl | rfl | rfl <;> rfl

theorem sidecar_name_inj (a b ext ext2 : String) (he : ext ∈ sidecarExts)
    (he2 : ext2 ∈ sidecarExts) (h : a ++ ext = b ++ ext2) : a = b ∧ ext = ext2 := by
  have t1 := ext_tail a ext he
  have t2 := ext_tail b ext2 he2
  rw [h, t2] at t1
  have e : ext = ext2 := by
    apply String.ext
    rw [ext_data ext he, ext_data ext2 he2]
    congr 1
    exact (List.reverse_injective t1).symm
  subst e
  exact ⟨string_append_right_cancel _ _ _ h, rfl⟩

theorem backupFile_inj (env : Env) (a b ext ext2 : String) (he : ext ∈ sidecarExts)
    (he2 : ext2 ∈ sidecarExts) (h : backupFile env (a ++ ext) = backupFile env (b ++ ext2)) :
    a = b ∧ ext = ext2 := by
  unfold backupFile at h
  exact sidecar_name_inj a b ext ext2 he he2 (string_append_left_cancel _ _ _ h)

namespace bittorrent

/-! ## Deleting a torrent -/

theorem deleteTorrent_s (env : Env) (st : bittorrent) (id : String) (permanent : Bool)
    (hv : (find_torrent st.s id).is_valid = true) :
    (deleteTorrent env st id permanent).s = remove_torrent st.s (find_torrent st.s id) := by
  unfold deleteTorrent
  simp only [hv, Bool.not_true, Bool.false_eq_true, if_false]
  split <;> rfl

theorem deleteTorrent_fs (env : Env) (st : bittorrent) (id : String) (permanent : Bool)
    (hv : (find_torrent st.s id).is_valid = true) (q : String) :
    (deleteTorrent env st id permanent).fs q
      = if q ∈ sidecarExts.map (fun ext => backupFile env (id ++ ext)) then none
        else st.fs q := by
  cases permanent <;> simp [deleteTorrent, hv, fs_remove, sidecarExts] <;>
    (split_ifs <;> simp_all)

theorem deleteTorrent_etas (env : Env) (st : bittorrent) (id : String) (permanent : Bool)
    (hv : (find_torrent st.s id).is_valid = true) :
    (deleteTorrent env st id permanent).ETAstats = qhash_set st.ETAstats id none
    ∧ (deleteTorrent env st id permanent).ETAs = qhash_set st.ETAs id none := by
  cases permanent <;> simp [deleteTorrent, hv]

theorem find_torrent_remove (s : List torrent_handle) (h : torrent_handle) :
    (find_torrent (remove_torrent s h) h.info_hash).is_valid = false := by
  unfold find_torrent remove_torrent
  cases hf : (List.filter (fun t => decide (t.info_hash ≠ h.info_hash)) s).find?
      (fun t => t.is_valid && decide (t.info_hash = h.info_hash)) with
  | none => rfl
  | some t =>
    have h1 := List.find?_some hf
    have h2 := List.mem_of_find?_eq_some hf
    simp at h1 h2
    exact absurd h1.2 h2.2

/-- C10: for an identifier with a valid handle, whatever side-car files exist
and whatever the `permanent` flag, after `deleteTorrent` the session holds no
handle for it, none of its seven side-car files exists, its ETA window is gone
and `getETA` returns -1; the side-car files and the ETA entries of every other
identifier are unchanged. -/
theorem C10_deleteTorrent_removes_everything (env : Env) (st : bittorrent) (id : String)
    (permanent : Bool) (hv : (find_torrent st.s id).is_valid = true) :
    (find_torrent (deleteTorrent env st id permanent).s id).is_valid = false
    ∧ (∀ h ∈ (deleteTorrent env st id permanent).s, h.info_hash ≠ id)
    ∧ (∀ ext ∈ sidecarExts,
        (deleteTorrent env st id permanent).fs (backupFile env (id ++ ext)) = none)
    ∧ (deleteTorrent env st id permanent).ETAstats id = none
    ∧ getETA (deleteTorrent env st id permanent) id = -1
    ∧ (∀ id2, id2 ≠ id →
        (∀ ext ∈ sidecarExts,
          (deleteTorrent env st id permanent).fs (backupFile env (id2 ++ ext))
            = st.fs (backupFile env (id2 ++ ext)))
        ∧ (deleteTorrent env st id permanent).ETAstats id2 = st.ETAstats id2
        ∧ (deleteTorrent env st id permanent).ETAs id2 = st.ETAs id2
        ∧ getETA (deleteTorrent env st id permanent) id2 = getETA st id2) := by
  have hh : (find_torrent st.s id).info_hash = id := find_torrent_info_hash st.s id hv
  obtain ⟨e1, e2⟩ := deleteTorrent_etas env st id permanent hv
  refine ⟨?_, ?_, ?_, ?_, ?_, ?_⟩
  · rw [deleteTorrent_s env st id permanent hv]
    have := find_torrent_remove st.s (find_torrent st.s id)
    rwa [hh] at this
  · intro h hmem
    rw [deleteTorrent_s env st id permanent hv] at hmem
    unfold remove_torrent at hmem
    simp only [List.mem_filter, decide_eq_true_eq] at hmem
    rw [hh] at hmem
    exact hmem.2
  · intro ext he
    rw [deleteTorrent_fs env st id permanent hv, if_pos]
    exact List.mem_map.mpr ⟨ext, he, rfl⟩
  · rw [e1]; simp [qhash_set]
  · unfold getETA; rw [e2]; simp [qhash_set]
  · intro id2 hne
    refine ⟨?_, ?_, ?_, ?_⟩
    · intro ext he
      rw [deleteTorrent_fs env st id permanent hv, if_neg]
      intro hmem
      obtain ⟨ext2, he2, heq⟩ := List.mem_map.mp hmem
      exact hne (backupFile_inj env id id2 ext2 ext he2 he heq).1.symm
    · rw [e1]; simp [qhash_set, hne]
    · rw [e2]; simp [qhash_set, hne]
    · unfold getETA; rw [e2]; simp [qhash_set, hne]

/-- Witness for C10: deleting the torrent of `sampleState` removes its
priorities file and leaves no ETA. -/
theorem C10_deleteTorrent_removes_everything_witness :
    (deleteTorrent sampleEnv sampleState "H" true).fs "/q/BT_backup/H.priorities" = none
    ∧ getETA (deleteTorrent sampleEnv sampleState "H" true) "H" = -1 :=
  ⟨(C10_deleteTorrent_removes_everything sampleEnv sampleState "H" true (by decide)).2.2.1
      ".priorities" (by decide),
   (C10_deleteTorrent_removes_everything sampleEnv sampleState "H" true (by decide)).2.2.2.2.1⟩

end bittorrent
end Qbt

namespace Qbt

/-! ## Frame lemmas for the parts of `addTorrent` -/

theorem find_torrent_modify_valid (s : List torrent_handle) (hash : String)
    (f : torrent_handle → torrent_handle)
    (hf : ∀ t, (f t).is_valid = t.is_valid ∧ (f t).info_hash = t.info_hash) (k : String) :
    (find_torrent (modify_torrent s hash f) k).is_valid = (find_torrent s k).is_valid := by
  rw [find_torrent_modify s hash f hf k]
  split
  · exact (hf _).1
  · rfl

theorem find_torrent_append_new (s : List torrent_handle) (t : torrent_info) (sp : String)
    (rd : Option (List Char)) (c : Bool) :
    (find_torrent (s ++ [new_torrent t sp rd c]) t.info_hash).is_valid = true := by
  unfold find_torrent
  rw [List.find?_append]
  cases hf : s.find? (fun h => h.is_valid && decide (h.info_hash = t.info_hash)) with
  | some h =>
    have := List.find?_some hf
    simp only [Bool.and_eq_true] at this
    simpa using this.1
  | none => simp [new_torrent, torrent_handle.info_hash]

namespace bittorrent

theorem loadFilteredFiles_frame (env : Env) (st : bittorrent) (hash : String) :
    (loadFilteredFiles env st hash).fs = st.fs
    ∧ (loadFilteredFiles env st hash).dirs = st.dirs
    ∧ (loadFilteredFiles env st hash).signals = st.signals
    ∧ (loadFilteredFiles env st hash).torrentsUnchecked = st.torrentsUnchecked
    ∧ (loadFilteredFiles env st hash).torrentsToPauseAfterChecking
        = st.torrentsToPauseAfterChecking
    ∧ ∀ k, (find_torrent (loadFilteredFiles env st hash).s k).is_valid
        = (find_torrent st.s k).is_valid := by
  unfold loadFilteredFiles
  split
  · split <;> exact ⟨rfl, rfl, rfl, rfl, rfl, fun _ => rfl⟩
  · exact ⟨rfl, rfl, rfl, rfl, rfl,
      fun k => by
        apply find_torrent_modify_valid
        exact fun t => ⟨rfl, rfl⟩⟩

theorem loadTrackerFile_frame (env : Env) (st : bittorrent) (hash : String) :
    (loadTrackerFile env st hash).1.fs = st.fs
    ∧ (loadTrackerFile env st hash).1.dirs = st.dirs
    ∧ (loadTrackerFile env st hash).1.signals = st.signals
    ∧ (loadTrackerFile env st hash).1.torrentsUnchecked = st.torrentsUnchecked
    ∧ (loadTrackerFile env st hash).1.torrentsToPauseAfterChecking
        = st.torrentsToPauseAfterChecking
    ∧ ∀ k, (find_torrent (loadTrackerFile env st hash).1.s k).is_valid
        = (find_torrent st.s k).is_valid := by
  unfold loadTrackerFile
  split
  · exact ⟨rfl, rfl, rfl, rfl, rfl, fun _ => rfl⟩
  · simp only []
    split
    · exact ⟨rfl, rfl, rfl, rfl, rfl,
        fun k => by
        apply find_torrent_modify_valid
        exact fun t => ⟨rfl, rfl⟩⟩
    · exact ⟨rfl, rfl, rfl, rfl, rfl, fun _ => rfl⟩

theorem getSavePath_frame (env : Env) (st : bittorrent) (hash : String) :
    (getSavePath env st hash).1.fs = st.fs
    ∧ (getSavePath env st hash).1.s = st.s
    ∧ (getSavePath env st hash).1.signals = st.signals
    ∧ (getSavePath env st hash).1.torrentsUnchecked = st.torrentsUnchecked
    ∧ (getSavePath env st hash).1.torrentsToPauseAfterChecking
        = st.torrentsToPauseAfterChecking
    ∧ ∀ d, st.dirs d = true → (getSavePath env st hash).1.dirs d = true := by
  unfold getSavePath
  simp only []
  split
  · exact ⟨rfl, rfl, rfl, rfl, rfl, fun _ h => h⟩
  · split
    · exact ⟨rfl, rfl, rfl, rfl, rfl, fun d h => by simp [h]⟩
    · exact ⟨rfl, rfl, rfl, rfl, rfl, fun _ h => h⟩

theorem stepFrame_refl (env : Env) (hash : String) (a : bittorrent) : StepFrame env hash a a :=
  ⟨rfl, rfl, fun _ => rfl, rfl, fun _ _ _ h => h⟩

theorem stepFrame_trans {env : Env} {hash : String} {a b c : bittorrent}
    (h1 : StepFrame env hash a b) (h2 : StepFrame env hash b c) : StepFrame env hash a c :=
  ⟨h2.1.trans h1.1, h2.2.1.trans h1.2.1, fun k => (h2.2.2.1 k).trans (h1.2.2.1 k),
    h2.2.2.2.1.trans h1.2.2.2.1, fun p hp1 hp2 h => h2.2.2.2.2 p hp1 hp2 (h1.2.2.2.2 p hp1 hp2 h)⟩

theorem stepFrame_maxUploads (env : Env) (hash : String) (st : bittorrent) :
    StepFrame env hash st (addTorrent_maxUploads st hash) :=
  ⟨rfl, rfl, fun k => by
      apply find_torrent_modify_valid
      exact fun t => ⟨rfl, rfl⟩, rfl, fun _ _ _ h => h⟩

theorem stepFrame_loadFilteredFiles (env : Env) (hash : String) (st : bittorrent) :
    StepFrame env hash st (loadFilteredFiles env st hash) := by
  obtain ⟨h1, h2, h3, h4, _, h6⟩ := loadFilteredFiles_frame env st hash
  exact ⟨h3, h2, h6, h4, fun p _ _ h => by rw [h1]; exact h⟩

theorem stepFrame_loadTrackerFile (env : Env) (hash : String) (st : bittorrent) :
    StepFrame env hash st (loadTrackerFile env st hash).1 := by
  obtain ⟨h1, h2, h3, h4, _, h6⟩ := loadTrackerFile_frame env st hash
  exact ⟨h3, h2, h6, h4, fun p _ _ h => by rw [h1]; exact h⟩

theorem stepFrame_saveTrackerFile (env : Env) (hash : String) (st : bittorrent) :
    StepFrame env hash st (saveTrackerFile env st hash) := by
  refine ⟨rfl, rfl, fun _ => rfl, rfl, fun p hp1 _ h => ?_⟩
  simp [saveTrackerFile, fs_write, fs_remove, hp1, h]

theorem stepFrame_trackers (env : Env) (hash : String) (st : bittorrent) :
    StepFrame env hash st (addTorrent_trackers env st hash) := by
  unfold addTorrent_trackers
  show StepFrame env hash st
    (if (!(loadTrackerFile env st hash).2) = true then
      (loadTrackerFile env (saveTrackerFile env (loadTrackerFile env st hash).1 hash) hash).1
    else (loadTrackerFile env st hash).1)
  split
  · exact stepFrame_trans (stepFrame_loadTrackerFile env hash st)
      (stepFrame_trans (stepFrame_saveTrackerFile env hash _) (stepFrame_loadTrackerFile env hash _))
  · exact stepFrame_loadTrackerFile env hash st

theorem fs_remove_none (fs : String → Option (List Char)) (a p : String) (h : fs p = none) :
    fs_remove fs a p = none := by
  unfold fs_remove
  split <;> simp [h]

theorem fs_copy_none (fs : String → Option (List Char)) (a b p : String) (hne : p ≠ b)
    (h : fs p = none) : fs_copy fs a b p = none := by
  rcases ha : fs a with _ | c <;> rcases hb : fs b with _ | d <;>
    simp [fs_copy, ha, hb, hne, h]

theorem stepFrame_store (env : Env) (hash file : String) (st : bittorrent) :
    StepFrame env hash st (addTorrent_store env st file hash) := by
  unfold addTorrent_store
  simp only []
  split
  · exact ⟨rfl, rfl, fun _ => rfl, rfl,
      fun p _ hp2 h => fs_copy_none _ _ _ _ hp2 (fs_remove_none _ _ _ h)⟩
  · exact stepFrame_refl env hash st

theorem stepFrame_incremental (env : Env) (hash : String) (st : bittorrent) :
    StepFrame env hash st (addTorrent_incremental env st hash) := by
  unfold addTorrent_incremental
  split
  · exact ⟨rfl, rfl, fun k => by
      apply find_torrent_modify_valid
      exact fun t => ⟨rfl, rfl⟩, rfl, fun _ _ _ h => h⟩
  · exact stepFrame_refl env hash st

theorem stepFrame_deferPause (env : Env) (hash : String) (st : bittorrent) :
    StepFrame env hash st (addTorrent_deferPause env st hash) := by
  unfold addTorrent_deferPause
  split
  · exact ⟨rfl, rfl, fun _ => rfl, rfl, fun _ _ _ h => h⟩
  · exact stepFrame_refl env hash st

theorem stepFrame_removeSource (env : Env) (hash file : String) (f : Bool) (u : Option String)
    (st : bittorrent) :
    StepFrame env hash st (addTorrent_removeSource st file f u) := by
  unfold addTorrent_removeSource
  simp only []
  have h1 : StepFrame env hash st
      (if u.isSome = true then { st with fs := fs_remove st.fs file } else st) := by
    split
    · exact ⟨rfl, rfl, fun _ => rfl, rfl, fun p _ _ h => fs_remove_none _ _ _ h⟩
    · exact stepFrame_refl env hash st
  split
  · exact stepFrame_trans h1 ⟨rfl, rfl, fun _ => rfl, rfl, fun p _ _ h => fs_remove_none _ _ _ h⟩
  · exact h1

/-- The part of `addTorrent` after `add_torrent` emits `addedTorrent` and
otherwise respects `StepFrame`. -/
theorem addTorrent_finish_spec (env : Env) (st : bittorrent) (file hash : String) (f : Bool)
    (u : Option String) (fr : Bool) :
    ∃ st8 : bittorrent, StepFrame env hash st st8
      ∧ addTorrent_finish env st file hash f u fr
          = emit st8 (Signal.addedTorrent (originOf u file) hash fr) :=
  ⟨_, stepFrame_trans (stepFrame_maxUploads env hash st)
      (stepFrame_trans (stepFrame_loadFilteredFiles env hash _)
        (stepFrame_trans (stepFrame_trackers env hash _)
          (stepFrame_trans (stepFrame_store env hash file _)
            (stepFrame_trans (stepFrame_deferPause env hash _)
              (stepFrame_trans (stepFrame_incremental env hash _)
                (stepFrame_removeSource env hash file f u _)))))), rfl⟩

/-- What `addTorrent` does with a torrent that is not yet in the session:
either the engine rejects it and nothing is emitted, or `addedTorrent` is
emitted from a state that has a valid handle for it and no new file besides
those of the backward-compatibility renames, `hash.trackers` and
`hash.torrent`. -/
theorem addTorrent_new_spec (env : Env) (st : bittorrent) (file : String) (t : torrent_info)
    (f : Bool) (u : Option String) :
    (env.add_torrent_ok t = false ∧ (addTorrent_new env st file t f u).signals = st.signals)
    ∨ (env.add_torrent_ok t = true ∧ ∃ (st8 : bittorrent) (file2 : String) (fr : Bool),
        addTorrent_new env st file t f u
          = emit st8 (Signal.addedTorrent (originOf u file2) t.info_hash fr)
        ∧ st8.signals = st.signals
        ∧ (∀ d, st.dirs d = true → st8.dirs d = true)
        ∧ (find_torrent st8.s t.info_hash).is_valid = true
        ∧ st8.torrentsUnchecked = st.torrentsUnchecked
        ∧ ∀ p, p ≠ backupFile env (t.info_hash ++ ".trackers") →
            p ≠ backupFile env (t.info_hash ++ ".torrent") →
            (if (st.fs (backupFile env (t.name ++ ".torrent"))).isSome = true
              then migrateLegacy env st.fs t.name t.info_hash else st.fs) p = none →
            st8.fs p = none) := by
  unfold addTorrent_new
  simp only []
  by_cases hok : env.add_torrent_ok t = true
  · right
    refine ⟨hok, ?_⟩
    simp only [hok, Bool.not_true, Bool.false_eq_true, if_false]
    obtain ⟨g1, g2, g3, g4, _, g6⟩ := getSavePath_frame env
      (if (st.fs (backupFile env (t.name ++ ".torrent"))).isSome = true then
        { st with fs := migrateLegacy env st.fs t.name t.info_hash } else st) t.info_hash
    obtain ⟨st8, hframe, heq⟩ := addTorrent_finish_spec env
      { (getSavePath env
          (if (st.fs (backupFile env (t.name ++ ".torrent"))).isSome = true then
            { st with fs := migrateLegacy env st.fs t.name t.info_hash } else st) t.info_hash).1 with
        s := (getSavePath env
          (if (st.fs (backupFile env (t.name ++ ".torrent"))).isSome = true then
            { st with fs := migrateLegacy env st.fs t.name t.info_hash } else st) t.info_hash).1.s
          ++ [new_torrent t
              (getSavePath env
                (if (st.fs (backupFile env (t.name ++ ".torrent"))).isSome = true then
                  { st with fs := migrateLegacy env st.fs t.name t.info_hash } else st)
                t.info_hash).2
              (match (if (st.fs (backupFile env (t.name ++ ".torrent"))).isSome = true then
                  { st with fs := migrateLegacy env st.fs t.name t.info_hash } else st).fs
                    (backupFile env (t.info_hash ++ ".fastresume")) with
                | some content => env.bdecode_entry content
                | none => none)
              (!hasFilteredFiles env (getSavePath env
                (if (st.fs (backupFile env (t.name ++ ".torrent"))).isSome = true then
                  { st with fs := migrateLegacy env st.fs t.name t.info_hash } else st)
                t.info_hash).1 t.info_hash)] }
      (if (st.fs (backupFile env (t.name ++ ".torrent"))).isSome = true then
        backupFile env (t.info_hash ++ ".torrent") else file)
      t.info_hash f u
      (match (if (st.fs (backupFile env (t.name ++ ".torrent"))).isSome = true then
          { st with fs := migrateLegacy env st.fs t.name t.info_hash } else st).fs
            (backupFile env (t.info_hash ++ ".fastresume")) with
        | some content => env.bdecode_entry content
        | none => none).isSome
    refine ⟨st8, _, _, heq, ?_, ?_, ?_, ?_, ?_⟩
    · rw [hframe.1]
      show (getSavePath env _ t.info_hash).1.signals = st.signals
      rw [g3]; split <;> rfl
    · intro d hd
      rw [hframe.2.1]
      show (getSavePath env _ t.info_hash).1.dirs d = true
      apply g6
      split <;> exact hd
    · rw [hframe.2.2.1]
      exact find_torrent_append_new _ _ _ _ _
    · rw [hframe.2.2.2.1]
      show (getSavePath env _ t.info_hash).1.torrentsUnchecked = st.torrentsUnchecked
      rw [g4]; split <;> rfl
    · intro p hp1 hp2 hnone
      apply hframe.2.2.2.2 p hp1 hp2
      show (getSavePath env _ t.info_hash).1.fs p = none
      rw [g1]
      split
      · rename_i hm; rw [if_pos hm] at hnone; exact hnone
      · rename_i hm; rw [if_neg hm] at hnone; exact hnone
  · left
    have hok2 : env.add_torrent_ok t = false := by simpa using hok
    refine ⟨hok2, ?_⟩
    simp only [hok2, Bool.not_false, if_true]
    rw [(getSavePath_frame env _ t.info_hash).2.2.1]
    split <;> rfl

theorem append_singleton_inj {α : Type} (l : List α) (a b : α) (h : l ++ [a] = l ++ [b]) :
    a = b := by
  have := List.append_cancel_left h
  simpa using this

theorem ne_append_singleton {α : Type} (l : List α) (a : α) : l ≠ l ++ [a] := by
  intro h
  have := congrArg List.length h
  simp at this

theorem addTorrent_checkDuplicate_success (env : Env) (st : bittorrent) (file : String)
    (t : torrent_info) (f : Bool) (u : Option String) (origin id : String) (fr : Bool)
    (hsig : (addTorrent_checkDuplicate env st file t f u).signals
      = st.signals ++ [Signal.addedTorrent origin id fr]) :
    ∃ st8 : bittorrent,
      t.info_hash = id
      ∧ (find_torrent st.s id).is_valid = false
      ∧ addTorrent_checkDuplicate env st file t f u = emit st8 (Signal.addedTorrent origin id fr)
      ∧ (∀ d, st.dirs d = true → st8.dirs d = true)
      ∧ (find_torrent st8.s id).is_valid = true
      ∧ st8.torrentsUnchecked = st.torrentsUnchecked
      ∧ ∀ p, p ≠ backupFile env (id ++ ".trackers") →
          p ≠ backupFile env (id ++ ".torrent") →
          (if (st.fs (backupFile env (t.name ++ ".torrent"))).isSome = true
            then migrateLegacy env st.fs t.name id else st.fs) p = none →
          st8.fs p = none := by
  unfold addTorrent_checkDuplicate at hsig ⊢
  by_cases hdup : (find_torrent st.s t.info_hash).is_valid = true
  · exfalso
    simp only [hdup, if_true] at hsig
    split at hsig
    · exact Signal.noConfusion (append_singleton_inj _ _ _ hsig)
    · exact ne_append_singleton _ _ hsig
  · simp only [hdup, Bool.false_eq_true, if_false] at hsig ⊢
    rcases addTorrent_new_spec env st file t f u with ⟨_, h2⟩ | ⟨_, st8, file2, fr2, h1, h2, h3, h4, h5, h6⟩
    · rw [h2] at hsig
      exact absurd hsig (ne_append_singleton _ _)
    · rw [h1] at hsig
      simp only [emit, h2] at hsig
      have e := append_singleton_inj _ _ _ hsig
      simp only [Signal.addedTorrent.injEq] at e
      obtain ⟨e1, e2, e3⟩ := e
      subst e2
      rw [h1, e1, e3]
      exact ⟨st8, rfl, by simpa using hdup, rfl, h3, h4, h5, h6⟩

/-- A call of `addTorrent` whose only signal is `addedTorrent` went through
the whole function: the file decoded to a torrent `t` with the reported
identifier, which had no valid handle yet, and the state reached has a valid
handle for it. -/
theorem addTorrent_success (env : Env) (st : bittorrent) (path : String) (f o : Bool)
    (u : Option String) (st2 : bittorrent) (origin id : String) (fr : Bool)
    (hadd : addTorrent env st path f o u = some st2)
    (hsig : st2.signals = st.signals ++ [Signal.addedTorrent origin id fr]) :
    ∃ (t : torrent_info) (st8 : bittorrent),
      readTorrentFile env st (sourceFile path) = Except.ok t
      ∧ t.info_hash = id
      ∧ (find_torrent st.s id).is_valid = false
      ∧ st2 = emit st8 (Signal.addedTorrent origin id fr)
      ∧ st8.dirs (backupDir env) = true
      ∧ (find_torrent st8.s id).is_valid = true
      ∧ ∀ p, p ≠ backupFile env (id ++ ".trackers") →
          p ≠ backupFile env (id ++ ".torrent") →
          (if (st.fs (backupFile env (t.name ++ ".torrent"))).isSome = true
            then migrateLegacy env st.fs t.name id else st.fs) p = none →
          st8.fs p = none := by
  unfold addTorrent at hadd
  by_cases hexit : (!st.dirs (backupDir env) && !env.mkpath (backupDir env)) = true
  · simp [hexit] at hadd
  · simp only [hexit, Bool.false_eq_true, if_false] at hadd
    by_cases hfile : sourceFile path = ""
    · simp only [hfile, if_true, Option.some.injEq] at hadd
      subst hadd
      exact absurd hsig (ne_append_singleton _ _)
    · simp only [hfile, if_false] at hadd
      have hread : readTorrentFile env
          { st with dirs := fun d => decide (d = backupDir env) || st.dirs d } (sourceFile path)
          = readTorrentFile env st (sourceFile path) := rfl
      rw [hread] at hadd
      cases hr : readTorrentFile env st (sourceFile path) with
      | error e =>
        rw [hr] at hadd
        simp only [Option.some.injEq] at hadd
        subst hadd
        exfalso
        unfold addTorrent_invalid at hsig
        simp only [emit] at hsig
        split at hsig
        · exact Signal.noConfusion (append_singleton_inj _ _ _ hsig)
        · exact Signal.noConfusion (append_singleton_inj _ _ _ hsig)
      | ok t =>
        rw [hr] at hadd
        simp only [Option.some.injEq] at hadd
        subst hadd
        unfold addTorrent_decoded at hsig ⊢
        cases o
        · simp only [Bool.false_eq_true, if_false] at hsig ⊢
          obtain ⟨st8, h1, h2, h3, h4, h5, _, h7⟩ :=
            addTorrent_checkDuplicate_success env _ _ t f u origin id fr hsig
          exact ⟨t, st8, rfl, h1, h2, h3, h4 _ (by simp), h5, h7⟩
        · simp only [if_true] at hsig ⊢
          obtain ⟨st8, h1, h2, h3, h4, h5, _, h7⟩ :=
            addTorrent_checkDuplicate_success env _ _ t f u origin id fr hsig
          exact ⟨t, st8, rfl, h1, h2, h3, h4 _ (by simp), h5, h7⟩

/-! ## Adding a torrent twice -/

/-- C6 (amended): after a successful `addTorrent` (its only signal is
`addedTorrent` for `id`), a second `addTorrent` of a non-empty source file
that decodes to a torrent with the same identifier returns, for every
`fromScanDir`, `onStartup` and `from_url`, with the session unchanged and
every file other than its source file unchanged; the source file is deleted
exactly when `fromScanDir` is set.  Hence every side-car file of `id` is
unchanged unless `fromScanDir` is set and the source file is that side-car
file itself. -/
theorem C6_second_add_is_duplicate (env : Env) (st0 : bittorrent) (path1 : String)
    (f1 o1 : Bool) (u1 : Option String) (st1 : bittorrent) (origin1 id : String) (fr1 : Bool)
    (hadd1 : addTorrent env st0 path1 f1 o1 u1 = some st1)
    (hsig1 : st1.signals = st0.signals ++ [Signal.addedTorrent origin1 id fr1])
    (path2 : String) (f2 o2 : Bool) (u2 : Option String) (t : torrent_info)
    (hfile2 : sourceFile path2 ≠ "")
    (hdec : readTorrentFile env st1 (sourceFile path2) = Except.ok t)
    (hid : t.info_hash = id) :
    ∃ st2 : bittorrent,
      addTorrent env st1 path2 f2 o2 u2 = some st2
      ∧ st2.s = st1.s
      ∧ (∀ p, p ≠ sourceFile path2 → st2.fs p = st1.fs p)
      ∧ (f2 = false → st2.fs = st1.fs)
      ∧ (f2 = true → st2.fs (sourceFile path2) = none)
      ∧ (∀ ext ∈ sidecarExts,
          (f2 = false ∨ sourceFile path2 ≠ backupFile env (id ++ ext)) →
          st2.fs (backupFile env (id ++ ext)) = st1.fs (backupFile env (id ++ ext))) := by
  obtain ⟨_, st8, _, _, _, hst1, hdirs, hvalid, _⟩ :=
    addTorrent_success env st0 path1 f1 o1 u1 st1 origin1 id fr1 hadd1 hsig1
  have hd1 : st1.dirs (backupDir env) = true := by rw [hst1]; exact hdirs
  have hv1 : (find_torrent st1.s t.info_hash).is_valid = true := by
    rw [hid, hst1]; exact hvalid
  have hread : readTorrentFile env
      { st1 with dirs := fun d => decide (d = backupDir env) || st1.dirs d } (sourceFile path2)
      = Except.ok t := hdec
  have key : ∃ st2 : bittorrent,
      addTorrent env st1 path2 f2 o2 u2 = some st2
      ∧ st2.s = st1.s
      ∧ (∀ p, p ≠ sourceFile path2 → st2.fs p = st1.fs p)
      ∧ (f2 = false → st2.fs = st1.fs)
      ∧ (f2 = true → st2.fs (sourceFile path2) = none) := by
    unfold addTorrent
    simp only [hd1, Bool.not_true, Bool.false_and, Bool.false_eq_true, if_false, hfile2, hread]
    refine ⟨_, rfl, ?_⟩
    unfold addTorrent_decoded addTorrent_checkDuplicate
    cases o2 <;> cases f2 <;>
      simp [hv1, emit, fs_remove]
    all_goals
      intro p hp
      simp [hp]
  obtain ⟨st2, h1, h2, h3, h4, h5⟩ := key
  refine ⟨st2, h1, h2, h3, h4, h5, ?_⟩
  intro ext _ hcond
  rcases hcond with hf | hne
  · rw [h4 hf]
  · exact h3 _ (fun e => hne e.symm)

/-- Counterexample to C6: `/src/a.torrent` is added, which stores
`H.torrent` in the backup directory; a second `addTorrent` of that very file
`H.torrent` with `fromScanDir = true` finds the duplicate and deletes the
side-car file `H.torrent`. -/
theorem C6_second_add_counterexample :
    ∃ st1 st2 : bittorrent,
      addTorrent sampleEnv sourceOnlyState "/src/a.torrent" false false none = some st1
      ∧ st1.signals = [Signal.addedTorrent "/src/a.torrent" "H" false]
      ∧ st1.fs "/q/BT_backup/H.torrent" = some "torrent-H".toList
      ∧ addTorrent sampleEnv st1 "/q/BT_backup/H.torrent" true false none = some st2
      ∧ st2.fs "/q/BT_backup/H.torrent" = none :=
  ⟨_, _, rfl, rfl, rfl, rfl, rfl⟩

/-- Witness for C6 (amended): after `/src/a.torrent` has been added, adding it
again as a scan-directory file downloaded from a URL on startup leaves the
session and the seven side-car files of `H` unchanged. -/
theorem C6_second_add_is_duplicate_witness :
    ∃ st2 : bittorrent,
      addTorrent sampleEnv addedState "/src/a.torrent" true true (some "http://x/a.torrent")
        = some st2
      ∧ st2.s = addedState.s
      ∧ ∀ ext ∈ sidecarExts,
          st2.fs (backupFile sampleEnv ("H" ++ ext))
            = addedState.fs (backupFile sampleEnv ("H" ++ ext)) := by
  obtain ⟨st2, h1, h2, _, _, _, h6⟩ :=
    C6_second_add_is_duplicate sampleEnv sourceOnlyState "/src/a.torrent" false false none
      addedState "/src/a.torrent" "H" false rfl rfl
      "/src/a.torrent" true true (some "http://x/a.torrent") sampleInfo (by decide) rfl rfl
  refine ⟨st2, h1, h2, fun ext he => h6 ext he (Or.inr ?_)⟩
  intro h
  have := congrArg String.length h
  simp only [sidecarExts, List.mem_cons, List.mem_singleton, List.not_mem_nil, or_false] at he
  rcases he with rfl | rfl | rfl | rfl | rfl | rfl | rfl <;> exact absurd this (by decide)

/-! ## Deleting and adding again -/

theorem fs_rename_none (fs : String → Option (List Char)) (a b p : String) (hne : p ≠ b)
    (h : fs p = none) : fs_rename fs a b p = none := by
  rcases ha : fs a with _ | c <;> rcases hb : fs b with _ | d <;>
    simp [fs_rename, ha, hb, hne, h]

theorem fs_rename_src_none (fs : String → Option (List Char)) (a b : String)
    (h : fs a = none) : fs_rename fs a b = fs := by
  simp [fs_rename, h]

theorem backupFile_ne (env : Env) (a b ext ext2 : String) (he : ext ∈ sidecarExts)
    (he2 : ext2 ∈ sidecarExts) (hne : ext ≠ ext2) :
    backupFile env (a ++ ext) ≠ backupFile env (b ++ ext2) :=
  fun h => hne (backupFile_inj env a b ext ext2 he he2 h).2

/-- The backward-compatibility renames create no paused marker for the hash
when the record named after the torrent has none. -/
theorem migrateLegacy_paused_none (env : Env) (fs : String → Option (List Char))
    (name hash : String)
    (hP : fs (backupFile env (hash ++ ".paused")) = none)
    (hN : fs (backupFile env (name ++ ".paused")) = none) :
    migrateLegacy env fs name hash (backupFile env (hash ++ ".paused")) = none := by
  simp only [migrateLegacy]
  have n1 := fs_rename_none fs (backupFile env (name ++ ".torrent"))
    (backupFile env (hash ++ ".torrent")) _
    (backupFile_ne env name hash ".paused" ".torrent" (by decide) (by decide) (by decide)) hN
  have p1 := fs_rename_none fs (backupFile env (name ++ ".torrent"))
    (backupFile env (hash ++ ".torrent")) _
    (backupFile_ne env hash hash ".paused" ".torrent" (by decide) (by decide) (by decide)) hP
  have n2 := fs_rename_none _ (backupFile env (name ++ ".fastresume"))
    (backupFile env (hash ++ ".fastresume")) _
    (backupFile_ne env name hash ".paused" ".fastresume" (by decide) (by decide) (by decide)) n1
  have p2 := fs_rename_none _ (backupFile env (name ++ ".fastresume"))
    (backupFile env (hash ++ ".fastresume")) _
    (backupFile_ne env hash hash ".paused" ".fastresume" (by decide) (by decide) (by decide)) p1
  have n3 := fs_rename_none _ (backupFile env (name ++ ".savepath"))
    (backupFile env (hash ++ ".savepath")) _
    (backupFile_ne env name hash ".paused" ".savepath" (by decide) (by decide) (by decide)) n2
  have p3 := fs_rename_none _ (backupFile env (name ++ ".savepath"))
    (backupFile env (hash ++ ".savepath")) _
    (backupFile_ne env hash hash ".paused" ".savepath" (by decide) (by decide) (by decide)) p2
  rw [fs_rename_src_none _ (backupFile env (name ++ ".paused")) _ n3]
  exact fs_rename_none _ _ _ _
    (backupFile_ne env hash hash ".paused" ".incremental" (by decide) (by decide) (by decide)) p3

/-- C7 (amended): for a torrent with a valid handle whose paused marker
exists, `deleteTorrent` removes the marker, and a following successful
`addTorrent` (its only signal is `addedTorrent` for `id`) of a source file
decoding to `t` leaves no paused marker for `id`, provided the backup
directory does not hold both `<name>.torrent` and `<name>.paused` for the
name of `t` (a record named after the torrent, which `addTorrent` would
rename to the hash). -/
theorem C7_readd_has_no_paused_marker (env : Env) (st : bittorrent) (id : String)
    (permanent : Bool) (path : String) (f o : Bool) (u : Option String) (st2 : bittorrent)
    (origin : String) (fr : Bool) (t : torrent_info)
    (hv : (find_torrent st.s id).is_valid = true)
    (_hp : (st.fs (backupFile env (id ++ ".paused"))).isSome = true)
    (hdec : readTorrentFile env (deleteTorrent env st id permanent) (sourceFile path)
      = Except.ok t)
    (hleg : st.fs (backupFile env (t.name ++ ".torrent")) = none
      ∨ st.fs (backupFile env (t.name ++ ".paused")) = none)
    (hadd : addTorrent env (deleteTorrent env st id permanent) path f o u = some st2)
    (hsig : st2.signals
      = (deleteTorrent env st id permanent).signals ++ [Signal.addedTorrent origin id fr]) :
    (deleteTorrent env st id permanent).fs (backupFile env (id ++ ".paused")) = none
    ∧ st2.fs (backupFile env (id ++ ".paused")) = none := by
  have hdel : ∀ q, st.fs q = none → (deleteTorrent env st id permanent).fs q = none := by
    intro q hq
    rw [deleteTorrent_fs env st id permanent hv]
    split
    · rfl
    · exact hq
  have hP : (deleteTorrent env st id permanent).fs (backupFile env (id ++ ".paused")) = none := by
    rw [deleteTorrent_fs env st id permanent hv, if_pos]
    exact List.mem_map.mpr ⟨".paused", by decide, rfl⟩
  refine ⟨hP, ?_⟩
  obtain ⟨t2, st8, hread, _, _, hst2, _, _, hfs⟩ :=
    addTorrent_success env _ path f o u st2 origin id fr hadd hsig
  rw [hdec] at hread
  have ht : t = t2 := by injection hread
  subst ht
  rw [hst2]
  show st8.fs (backupFile env (id ++ ".paused")) = none
  apply hfs
  · exact backupFile_ne env id id ".paused" ".trackers" (by decide) (by decide) (by decide)
  · exact backupFile_ne env id id ".paused" ".torrent" (by decide) (by decide) (by decide)
  · split
    · rename_i hm
      rcases hleg with hl | hl
      · rw [hdel _ hl] at hm
        exact absurd hm (by simp)
      · exact migrateLegacy_paused_none env _ _ _ hP (hdel _ hl)
    · exact hP

/-- Counterexample to C7: the backup directory holds `demo.torrent`,
`demo.paused`, `H.torrent` and `H.paused` for the torrent `demo` of hash `H`.
The torrent is added from `/src/a.torrent` (the renames to the existing
`H.*` files fail), paused and deleted (the `H.*` files are removed); adding
`/src/a.torrent` again succeeds and renames `demo.paused` to `H.paused`, so a
paused marker exists afterwards. -/
theorem C7_readd_counterexample :
    ∃ st1 st4 : bittorrent,
      addTorrent sampleEnv legacyState "/src/a.torrent" false false none = some st1
      ∧ st1.signals = [Signal.addedTorrent "/q/BT_backup/H.torrent" "H" false]
      ∧ (find_torrent (pauseTorrent sampleEnv st1 "H").s "H").is_paused = true
      ∧ (pauseTorrent sampleEnv st1 "H").fs "/q/BT_backup/H.paused" = some []
      ∧ addTorrent sampleEnv (deleteTorrent sampleEnv (pauseTorrent sampleEnv st1 "H") "H" false)
          "/src/a.torrent" false false none = some st4
      ∧ st4.signals = st1.signals ++ [Signal.addedTorrent "/q/BT_backup/H.torrent" "H" false]
      ∧ st4.fs "/q/BT_backup/H.paused" = some [] :=
  ⟨_, _, rfl, rfl, rfl, rfl, rfl, rfl, rfl⟩

/-- Witness for C7 (amended): `/src/a.torrent` is added to an empty backup
directory, paused (the marker exists), deleted and added again; no paused
marker exists afterwards. -/
theorem C7_readd_has_no_paused_marker_witness :
    ((pauseTorrent sampleEnv addedState "H").fs "/q/BT_backup/H.paused").isSome = true
    ∧ readdedState.fs "/q/BT_backup/H.paused" = none :=
  ⟨rfl, (C7_readd_has_no_paused_marker sampleEnv (pauseTorrent sampleEnv addedState "H") "H" false
    "/src/a.torrent" false false none readdedState "/src/a.torrent" false sampleInfo
    rfl rfl rfl (Or.inl rfl) rfl rfl).2⟩

end bittorrent
end Qbt

namespace Qbt
namespace bittorrent

/-! ## Alerts -/

theorem readAlerts_alert_signals (st : bittorrent) (a : alert) (now : String) :
    (readAlerts_alert st a now).signals = st.signals ++ alertSignals a now := by
  cases a with
  | tracker_alert handle status_code msg =>
    by_cases h : status_code = 401 <;> simp [readAlerts_alert, alertSignals, emit, h]
  | _ => simp [readAlerts_alert, alertSignals, emit]

theorem alertSignals_length (a : alert) (now : String) :
    (alertSignals a now).length = alertSignalCount a := by
  cases a with
  | tracker_alert handle status_code msg =>
    by_cases h : status_code = 401 <;> simp [alertSignals, alertSignalCount, h]
  | _ => simp [alertSignals, alertSignalCount]

theorem queueSignals_length (clock : Nat → String) (queue : List alert) :
    ∀ k, (queueSignals clock k queue).length = (queue.map alertSignalCount).sum := by
  induction queue with
  | nil => intro k; rfl
  | cons a rest ih =>
    intro k
    simp [queueSignals, alertSignals_length, ih]

/-- C11 (amended): `readAlerts` drains the queue to empty and emits, in queue
order, the signals of each alert: one signal for a finished, file-error,
listen-failed or peer-blocked alert, `trackerError` for a tracker alert
followed by `trackerAuthenticationRequired` when its status code is 401, and
nothing for an alert of any other class; so the number of signals is the sum
of these counts, not the length of the queue. -/
theorem C11_readAlerts_drains_and_translates (st : bittorrent) (queue : List alert)
    (clock : Nat → String) (k : Nat) :
    (readAlerts st queue clock k).2 = []
    ∧ (readAlerts st queue clock k).1.signals = st.signals ++ queueSignals clock k queue
    ∧ (queueSignals clock k queue).length = (queue.map alertSignalCount).sum := by
  refine ⟨?_, ?_, queueSignals_length clock queue k⟩
  · induction queue generalizing st k with
    | nil => rfl
    | cons a rest ih => exact ih _ _
  · induction queue generalizing st k with
    | nil => simp [readAlerts, queueSignals]
    | cons a rest ih =>
      show (readAlerts (readAlerts_alert st a (clock k)) rest clock (k + 1)).1.signals = _
      rw [ih, readAlerts_alert_signals, queueSignals, List.append_assoc]

/-- Counterexample to C11: a queue holding one alert of a class `readAlerts`
does not test for gives no signal, and a queue holding one tracker alert with
status 401 gives two. -/
theorem C11_readAlerts_counterexample :
    (readAlerts sampleState [alert.other_alert "hash check failed"] (fun _ => "12:00:00") 0).1.signals
      = []
    ∧ (readAlerts sampleState [alert.tracker_alert "H" 401 "unauthorized"]
        (fun _ => "12:00:00") 0).1.signals
      = [Signal.trackerError "H" "12:00:00" "unauthorized",
         Signal.trackerAuthenticationRequired "H"] := by
  decide

end bittorrent
end Qbt

namespace Qbt
namespace bittorrent

/-! ## ETA of an idle torrent -/

theorem updateETAs_handle_idle (env : Env) (st : bittorrent) (id : String) (h : torrent_handle)
    (hs : tickSamples env id [h] = []) :
    (updateETAs_handle env st h).ETAs id = st.ETAs id
    ∧ (updateETAs_handle env st h).ETAstats id = st.ETAstats id := by
  unfold updateETAs_handle
  by_cases hv : h.is_valid = true
  · by_cases hr : h.download_payload_rate = 0
    · simp [hv, hr]
    · have hid : ¬ h.info_hash = id := by
        intro e
        simp [tickSamples, hv, hr, e] at hs
      have hid2 : ¬ id = h.info_hash := fun e => hid e.symm
      simp [hv, hr, qhash_set, hid2]
  · simp [hv]

theorem updateETAs_foldl_idle (env : Env) (hs : List torrent_handle) (st : bittorrent)
    (id : String) (hidle : tickSamples env id hs = []) :
    (hs.foldl (updateETAs_handle env) st).ETAs id = st.ETAs id
    ∧ (hs.foldl (updateETAs_handle env) st).ETAstats id = st.ETAstats id := by
  induction hs generalizing st with
  | nil => exact ⟨rfl, rfl⟩
  | cons h hs ih =>
    rw [tickSamples_cons] at hidle
    obtain ⟨h1, h2⟩ := List.append_eq_nil.mp hidle
    obtain ⟨a1, a2⟩ := updateETAs_handle_idle env st id h h1
    obtain ⟨b1, b2⟩ := ih (updateETAs_handle env st h) h2
    exact ⟨b1.trans a1, b2.trans a2⟩

theorem etaTicks_idle (env : Env) (ticks : List (List torrent_handle)) (st : bittorrent)
    (id : String) (hidle : samplesOf env id ticks = []) :
    (etaTicks env st ticks).ETAs id = st.ETAs id
    ∧ (etaTicks env st ticks).ETAstats id = st.ETAstats id := by
  induction ticks generalizing st with
  | nil => exact ⟨rfl, rfl⟩
  | cons snap ticks ih =>
    simp only [samplesOf, List.flatMap_cons, List.append_eq_nil] at hidle
    obtain ⟨a1, a2⟩ := updateETAs_foldl_idle env snap { st with s := snap } id hidle.1
    obtain ⟨b1, b2⟩ := ih (etaTick env st snap) hidle.2
    exact ⟨b1.trans a1, b2.trans a2⟩

/-- C12 (amended): starting from a state with no sample window and no
published value for `id`, after any sequence of `updateETAs` ticks `getETA id`
is -1 whenever no sample window exists for `id`; and a tick at which `id`
produces no sample (its rate is zero) leaves `getETA id` at its previous
value, which is -1 only if no sample had been produced before. -/
theorem C12_getETA_sentinel_until_first_sample (env : Env) (st : bittorrent) (id : String)
    (hw : st.ETAstats id = none) (he : st.ETAs id = none) :
    (∀ ticks : List (List torrent_handle), (etaTicks env st ticks).ETAstats id = none →
        getETA (etaTicks env st ticks) id = -1)
    ∧ (∀ (ticks : List (List torrent_handle)) (snap : List torrent_handle),
        tickSamples env id snap = [] →
        getETA (etaTick env (etaTicks env st ticks) snap) id
          = getETA (etaTicks env st ticks) id) := by
  refine ⟨fun ticks hnone => ?_, fun ticks snap hidle => ?_⟩
  · have inv := EtaInv_ticks env ticks st id []
      ⟨by simp [etaWindow, hw, lastN], fun h => absurd rfl h⟩
    rw [List.nil_append] at inv
    have hlen := lastN_length 8 (samplesOf env id ticks)
    rw [← inv.1] at hlen
    simp only [etaWindow, hnone, Option.getD_none, List.length_nil] at hlen
    have hs : samplesOf env id ticks = [] := by
      apply List.eq_nil_of_length_eq_zero
      omega
    unfold getETA
    rw [(etaTicks_idle env ticks st id hs).1, he]
    rfl
  · unfold getETA
    rw [show etaTick env (etaTicks env st ticks) snap
        = snap.foldl (updateETAs_handle env) { etaTicks env st ticks with s := snap } from rfl,
      (updateETAs_foldl_idle env snap _ id hidle).1]

/-- Witness for C12 (amended): one tick at which the torrent `h` has rate zero,
from the initial state; no window exists and `getETA` is -1. -/
theorem C12_getETA_sentinel_until_first_sample_witness :
    getETA (etaTicks sampleEnv (initialState (fun _ => none) (fun _ => false) "/dl")
      [[sampleHandle "h" 400 200 0]]) "h" = -1 :=
  (C12_getETA_sentinel_until_first_sample sampleEnv
    (initialState (fun _ => none) (fun _ => false) "/dl") "h" rfl rfl).1
    [[sampleHandle "h" 400 200 0]]
    ((etaTicks_idle sampleEnv [[sampleHandle "h" 400 200 0]] _ "h"
      (by simp [samplesOf, tickSamples, sampleHandle])).2.trans rfl)

/-- Counterexample to C12: a torrent of 400 bytes with 200 done is sampled at
rate 2 (sample 100), then a tick finds its rate zero; `getETA` still returns
100, not -1. -/
theorem C12_getETA_zero_rate_counterexample :
    (sampleHandle "h" 400 200 0).download_payload_rate = 0
    ∧ getETA (etaTicks sampleEnv (initialState (fun _ => none) (fun _ => false) "/dl")
        [[sampleHandle "h" 400 200 2], [sampleHandle "h" 400 200 0]]) "h" = 100
    ∧ getETA (etaTicks sampleEnv (initialState (fun _ => none) (fun _ => false) "/dl")
        [[sampleHandle "h" 400 200 2], [sampleHandle "h" 400 200 0]]) "h" ≠ -1 := by
  have e100 : etaSample sampleEnv (sampleHandle "h" 400 200 ((2 : Nat) : ℚ)) = 100 :=
    etaSample_exact sampleEnv (by decide) "h" 400 200 2 100 (by decide) (by norm_num)
      (by decide) (by norm_num) (by decide)
  rw [Nat.cast_ofNat] at e100
  have hs : samplesOf sampleEnv "h" [[sampleHandle "h" 400 200 2]] = [100] := by
    simp only [samplesOf, List.flatMap_cons, List.flatMap_nil, List.append_nil]
    rw [tickSamples_single sampleEnv "h" (sampleHandle "h" 400 200 2) rfl rfl
      (by simp [sampleHandle]), e100]
  have h0 : tickSamples sampleEnv "h" [sampleHandle "h" 400 200 0] = [] := by
    simp [tickSamples, sampleHandle]
  have h1 : getETA (etaTicks sampleEnv (initialState (fun _ => none) (fun _ => false) "/dl")
      [[sampleHandle "h" 400 200 2]]) "h" = 100 := by
    rw [getETA_eq_windowMean _ _ _ _ rfl (by rw [hs]; simp), hs,
      windowMean_eq sampleEnv (by decide) _ (by decide) (by decide) (by decide)]
    decide
  have h2 : getETA (etaTicks sampleEnv (initialState (fun _ => none) (fun _ => false) "/dl")
      [[sampleHandle "h" 400 200 2], [sampleHandle "h" 400 200 0]]) "h" = 100 := by
    show getETA ([sampleHandle "h" 400 200 0].foldl (updateETAs_handle sampleEnv)
      { etaTicks sampleEnv (initialState (fun _ => none) (fun _ => false) "/dl")
          [[sampleHandle "h" 400 200 2]] with s := [sampleHandle "h" 400 200 0] }) "h" = 100
    unfold getETA
    rw [(updateETAs_foldl_idle sampleEnv _ _ "h" h0).1]
    exact h1
  refine ⟨rfl, h2, ?_⟩
  rw [h2]
  decide

end bittorrent
end Qbt

namespace Qbt

/-! ## Removing the first occurrence from a `QStringList` -/

/-- `indexOf` followed by `removeAt` removes the first occurrence: it is
`List.erase`. -/
theorem qlist_erase_first (l : List String) (x : String) :
    (qlist_indexOf l x = -1 ∧ x ∉ l)
    ∨ (0 ≤ qlist_indexOf l x ∧ x ∈ l ∧ qlist_removeAt l (qlist_indexOf l x) = l.erase x) := by
  induction l with
  | nil => left; exact ⟨rfl, by simp⟩
  | cons y ys ih =>
    unfold qlist_indexOf
    by_cases h : y = x
    · right
      subst h
      simp [qlist_removeAt]
    · have h2 : ¬ x = y := fun e => h e.symm
      simp only [h, if_false]
      rcases ih with ⟨i1, i2⟩ | ⟨i1, i2, i3⟩
      · left
        simp [i1, i2, h2]
      · right
        have hne : ¬ qlist_indexOf ys x = -1 := by omega
        simp only [hne, if_false]
        refine ⟨by omega, by simp [i2], ?_⟩
        unfold qlist_removeAt at i3 ⊢
        have e : (qlist_indexOf ys x + 1).toNat = (qlist_indexOf ys x).toNat + 1 := by omega
        rw [e, List.eraseIdx_cons_succ, i3]
        simp [List.erase_cons, h]

namespace bittorrent

theorem setTorrentFinishedChecking_list (st : bittorrent) (id : String) :
    (setTorrentFinishedChecking st id).torrentsUnchecked = st.torrentsUnchecked.erase id := by
  unfold setTorrentFinishedChecking
  rcases qlist_erase_first st.torrentsUnchecked id with ⟨h1, h2⟩ | ⟨h1, _, h3⟩
  · simp [h1, List.erase_of_not_mem h2]
  · have hne : ¬ qlist_indexOf st.torrentsUnchecked id = -1 := by omega
    simp only [ne_eq, hne, not_false_eq_true, if_true, h3]
    split <;> rfl

/-- C13 (amended): `setTorrentFinishedChecking id` removes the first
occurrence of `id` from the unchecked list, a list in which an identifier is
appended by every `addTorrent` call with `onStartup` set and can occur
several times: the number of occurrences of `id` drops by one, so `id` is
still a member afterwards exactly when it occurred at least twice; the
occurrences and the membership of every other identifier are unchanged. -/
theorem C13_markChecked_removes_one_occurrence (st : bittorrent) (id : String) :
    (setTorrentFinishedChecking st id).torrentsUnchecked = st.torrentsUnchecked.erase id
    ∧ (setTorrentFinishedChecking st id).torrentsUnchecked.count id
        = st.torrentsUnchecked.count id - 1
    ∧ (id ∈ (setTorrentFinishedChecking st id).torrentsUnchecked
        ↔ 2 ≤ st.torrentsUnchecked.count id)
    ∧ ∀ x, x ≠ id →
        (setTorrentFinishedChecking st id).torrentsUnchecked.count x
          = st.torrentsUnchecked.count x
        ∧ (x ∈ (setTorrentFinishedChecking st id).torrentsUnchecked
            ↔ x ∈ st.torrentsUnchecked) := by
  rw [setTorrentFinishedChecking_list]
  refine ⟨rfl, List.count_erase_self _ _, ?_, fun x hx => ⟨List.count_erase_of_ne hx _, ?_⟩⟩
  · rw [← List.count_pos_iff, List.count_erase_self]
    omega
  · exact List.mem_erase_of_ne hx

/-- Counterexample to C13: `/src/a.torrent` is added twice with `onStartup`
set; the second call ends as a duplicate and the hash `H` is registered
twice.  After `setTorrentFinishedChecking "H"` the hash is still a member of
the unchecked list. -/
theorem C13_markChecked_counterexample :
    ∃ st1 st2 : bittorrent,
      addTorrent sampleEnv sourceOnlyState "/src/a.torrent" false true none = some st1
      ∧ addTorrent sampleEnv st1 "/src/a.torrent" false true none = some st2
      ∧ st2.signals = [Signal.addedTorrent "/src/a.torrent" "H" false,
          Signal.duplicateTorrent "/src/a.torrent"]
      ∧ getUncheckedTorrentsList st2 = ["H", "H"]
      ∧ getUncheckedTorrentsList (setTorrentFinishedChecking st2 "H") = ["H"]
      ∧ "H" ∈ getUncheckedTorrentsList (setTorrentFinishedChecking st2 "H") :=
  ⟨_, _, rfl, rfl, rfl, rfl, rfl, by decide⟩

/-- Witness for C13 (amended): with `"A"` and `"B"` registered, marking `"A"`
leaves `"B"` registered. -/
theorem C13_markChecked_removes_one_occurrence_witness :
    "B" ∈ (setTorrentFinishedChecking
        { initialState (fun _ => none) (fun _ => false) "/dl" with
          torrentsUnchecked := ["A", "B"] } "A").torrentsUnchecked :=
  (((C13_markChecked_removes_one_occurrence
      { initialState (fun _ => none) (fun _ => false) "/dl" with
        torrentsUnchecked := ["A", "B"] } "A").2.2.2 "B" (by decide)).2).mpr (by decide)

end bittorrent
end Qbt

namespace Qbt
namespace bittorrent

/-! ## Pausing and resuming -/

theorem pauseTorrent_frame (env : Env) (st : bittorrent) (id : String)
    (hv : (find_torrent st.s id).is_valid = true)
    (hp : (find_torrent st.s id).is_paused = false) :
    (pauseTorrent env st id).s
        = modify_torrent st.s id (fun h => { h with is_paused := true })
    ∧ (pauseTorrent env st id).fs = fs_write st.fs (backupFile env (id ++ ".paused")) []
    ∧ (pauseTorrent env st id).torrentsToPauseAfterChecking
        = st.torrentsToPauseAfterChecking.erase id := by
  unfold pauseTorrent
  simp only [hv, hp, Bool.not_false, Bool.and_self, if_true]
  rcases qlist_erase_first st.torrentsToPauseAfterChecking id with ⟨h1, h2⟩ | ⟨h1, _, h3⟩
  · simp [h1, List.erase_of_not_mem h2]
  · have hne : ¬ qlist_indexOf st.torrentsToPauseAfterChecking id = -1 := by omega
    simp [hne, h3]

/-- C14 (amended): on a valid handle that is not paused, `pauseTorrent` leaves
the engine paused, the paused marker present and the first occurrence of `id`
removed from the pause-after-checking list, so `id` is absent from that list
when it was listed at most once, and `resumeTorrent` is a no-op; on a valid
paused handle, `resumeTorrent` leaves the engine running, the paused marker
absent and the list unchanged, and `pauseTorrent` is a no-op (the whole state
is unchanged). -/
theorem C14_pause_resume (env : Env) (st : bittorrent) (id : String)
    (hv : (find_torrent st.s id).is_valid = true) :
    ((find_torrent st.s id).is_paused = false →
      (find_torrent (pauseTorrent env st id).s id).is_valid = true
      ∧ (find_torrent (pauseTorrent env st id).s id).is_paused = true
      ∧ (pauseTorrent env st id).fs (backupFile env (id ++ ".paused")) = some []
      ∧ (pauseTorrent env st id).torrentsToPauseAfterChecking
          = st.torrentsToPauseAfterChecking.erase id
      ∧ (st.torrentsToPauseAfterChecking.count id ≤ 1 →
          id ∉ (pauseTorrent env st id).torrentsToPauseAfterChecking)
      ∧ resumeTorrent env st id = st)
    ∧ ((find_torrent st.s id).is_paused = true →
      (find_torrent (resumeTorrent env st id).s id).is_valid = true
      ∧ (find_torrent (resumeTorrent env st id).s id).is_paused = false
      ∧ (resumeTorrent env st id).fs (backupFile env (id ++ ".paused")) = none
      ∧ (resumeTorrent env st id).torrentsToPauseAfterChecking
          = st.torrentsToPauseAfterChecking
      ∧ pauseTorrent env st id = st) := by
  constructor
  · intro hp
    obtain ⟨e1, e2, e3⟩ := pauseTorrent_frame env st id hv hp
    have hfind : find_torrent (pauseTorrent env st id).s id
        = { find_torrent st.s id with is_paused := true } := by
      rw [e1, find_torrent_modify _ _ _ ?_]
      · simp [hv]
      · exact fun t => ⟨rfl, rfl⟩
    refine ⟨by rw [hfind]; exact hv, by rw [hfind], by simp [e2, fs_write], e3, ?_, ?_⟩
    · intro hc
      rw [e3, ← List.count_pos_iff, List.count_erase_self]
      omega
    · simp [resumeTorrent, hv, hp]
  · intro hp
    have hs : (resumeTorrent env st id).s
        = modify_torrent st.s id (fun h => { h with is_paused := false }) := by
      simp [resumeTorrent, hv, hp]
    have hfind : find_torrent (resumeTorrent env st id).s id
        = { find_torrent st.s id with is_paused := false } := by
      rw [hs, find_torrent_modify _ _ _ ?_]
      · simp [hv]
      · exact fun t => ⟨rfl, rfl⟩
    refine ⟨by rw [hfind]; exact hv, by rw [hfind], ?_, ?_, ?_⟩
    · simp [resumeTorrent, hv, hp, fs_remove]
    · simp [resumeTorrent, hv, hp]
    · simp [pauseTorrent, hv, hp]

/-- Counterexample to C14: the backup directory holds a record named after
the torrent and a record named after the hash, each with a paused marker.
The torrent is added (the hash is listed for a pause after checking), deleted
(the list keeps the hash, the marker `H.paused` is removed) and added again
(the marker of the other record is renamed to `H.paused` and the hash is
listed a second time).  `pauseTorrent` then pauses the engine and removes one
entry: the hash is still in the list. -/
theorem C14_pause_counterexample :
    ∃ st1 st2 : bittorrent,
      addTorrent sampleEnv legacyState "/src/a.torrent" false false none = some st1
      ∧ getTorrentsToPauseAfterChecking st1 = ["H"]
      ∧ addTorrent sampleEnv (deleteTorrent sampleEnv st1 "H" false)
          "/src/a.torrent" false false none = some st2
      ∧ getTorrentsToPauseAfterChecking st2 = ["H", "H"]
      ∧ (find_torrent st2.s "H").is_valid = true
      ∧ (find_torrent st2.s "H").is_paused = false
      ∧ (find_torrent (pauseTorrent sampleEnv st2 "H").s "H").is_paused = true
      ∧ getTorrentsToPauseAfterChecking (pauseTorrent sampleEnv st2 "H") = ["H"]
      ∧ "H" ∈ getTorrentsToPauseAfterChecking (pauseTorrent sampleEnv st2 "H") :=
  ⟨_, _, rfl, rfl, rfl, rfl, rfl, rfl, rfl, rfl, by decide⟩

/-- Witness for C14 (amended): pausing the running torrent of `sampleState`
creates the paused marker and leaves the hash out of the list. -/
theorem C14_pause_resume_witness :
    (pauseTorrent sampleEnv sampleState "H").fs "/q/BT_backup/H.paused" = some []
    ∧ "H" ∉ (pauseTorrent sampleEnv sampleState "H").torrentsToPauseAfterChecking :=
  ⟨((C14_pause_resume sampleEnv sampleState "H" (by decide)).1 (by decide)).2.2.1,
   ((C14_pause_resume sampleEnv sampleState "H" (by decide)).1 (by decide)).2.2.2.2.1
      (by decide)⟩

end bittorrent
end Qbt

namespace Qbt
namespace bittorrent

/-! ## Allocation mode -/

/-- C15: evaluation of the code at an input where it departs from the claim.
The torrent has three files and its priorities file has two entries instead
of four, the first being 0.  `hasFilteredFiles` returns `true`, so
`addTorrent` adds the torrent in full allocation mode (`compact_mode` is
false), while `loadFilteredFiles` rejects the same file for its length and
applies no priority. -/
theorem C15_hasFilteredFiles_ignores_length :
    (splitOn '\n' "0\n".toList).length = 2
    ∧ sampleInfo.num_files + 1 = 4
    ∧ hasFilteredFiles sampleEnv corruptPrioritiesState "H" = true
    ∧ ∃ st1 : bittorrent,
        addTorrent sampleEnv corruptPrioritiesState "/src/a.torrent" false false none = some st1
        ∧ st1.signals = [Signal.addedTorrent "/src/a.torrent" "H" false]
        ∧ (find_torrent st1.s "H").compact_mode = false
        ∧ (find_torrent st1.s "H").file_priorities = none :=
  ⟨rfl, rfl, rfl, _, rfl, rfl, rfl, rfl⟩

/-! ## Finished torrents -/

/-- C17: evaluation of the code at an input where it departs from the claim.
`getFinishedTorrentHandles` returns the empty list in every state, also in
`seedState`, whose session holds a seeding handle. -/
theorem C17_getFinishedTorrentHandles_is_empty :
    (∀ st : bittorrent, getFinishedTorrentHandles st = [])
    ∧ (∃ h ∈ getTorrentHandles seedState, h.is_seed = true)
    ∧ getFinishedTorrentHandles seedState = [] :=
  ⟨fun _ => rfl, ⟨_, List.mem_singleton.mpr rfl, rfl⟩, rfl⟩

/-! ## Lists kept by `deleteTorrent` -/

/-- C18: `deleteTorrent` leaves the pause-after-checking list and the
unchecked list unchanged, for every state, identifier and `permanent` flag; so
an identifier scheduled for a deferred pause or registered as unchecked is
still scheduled or registered after its torrent has been deleted. -/
theorem C18_deleteTorrent_keeps_lists (env : Env) (st : bittorrent) (id : String)
    (permanent : Bool) :
    getTorrentsToPauseAfterChecking (deleteTorrent env st id permanent)
        = getTorrentsToPauseAfterChecking st
    ∧ getUncheckedTorrentsList (deleteTorrent env st id permanent)
        = getUncheckedTorrentsList st
    ∧ (∀ x, x ∈ getTorrentsToPauseAfterChecking (deleteTorrent env st id permanent)
        ↔ x ∈ getTorrentsToPauseAfterChecking st)
    ∧ (∀ x, x ∈ getUncheckedTorrentsList (deleteTorrent env st id permanent)
        ↔ x ∈ getUncheckedTorrentsList st) := by
  have h : (deleteTorrent env st id permanent).torrentsToPauseAfterChecking
        = st.torrentsToPauseAfterChecking
      ∧ (deleteTorrent env st id permanent).torrentsUnchecked = st.torrentsUnchecked := by
    unfold deleteTorrent
    by_cases hv : (find_torrent st.s id).is_valid = true
    · cases permanent <;> simp [hv]
    · simp [hv]
  unfold getTorrentsToPauseAfterChecking getUncheckedTorrentsList
  rw [h.1, h.2]
  exact ⟨rfl, rfl, fun _ => Iff.rfl, fun _ => Iff.rfl⟩

/-! ## Notification of a duplicate -/

/-- C16 (amended): when `addTorrent` (which can create or finds the backup
directory, on a non-empty source file that decodes to `t`) finds a valid
handle for the identifier of `t`, the session is unchanged and: if the source
is not a scan-directory file, `duplicateTorrent` is emitted exactly once with
the origin (the URL when one was given, otherwise the file) and no file is
touched; if the source is a scan-directory file, no signal is emitted and the
source file is deleted. -/
theorem C16_duplicate_notification (env : Env) (st : bittorrent) (path : String)
    (f o : Bool) (u : Option String) (t : torrent_info)
    (hdir : (st.dirs (backupDir env) || env.mkpath (backupDir env)) = true)
    (hfile : sourceFile path ≠ "")
    (hdec : readTorrentFile env st (sourceFile path) = Except.ok t)
    (hdup : (find_torrent st.s t.info_hash).is_valid = true) :
    ∃ st2 : bittorrent,
      addTorrent env st path f o u = some st2
      ∧ st2.s = st.s
      ∧ (f = false →
          st2.signals = st.signals ++ [Signal.duplicateTorrent (originOf u (sourceFile path))]
          ∧ st2.fs = st.fs)
      ∧ (f = true →
          st2.signals = st.signals
          ∧ st2.fs = fs_remove st.fs (sourceFile path)
          ∧ st2.fs (sourceFile path) = none)
      ∧ (∀ url, u = some url → originOf u (sourceFile path) = url)
      ∧ (u = none → originOf u (sourceFile path) = sourceFile path) := by
  have hexit : (!st.dirs (backupDir env) && !env.mkpath (backupDir env)) = false := by
    cases h1 : st.dirs (backupDir env) <;> cases h2 : env.mkpath (backupDir env) <;>
      simp [h1, h2] at hdir ⊢
  have hread : readTorrentFile env
      { st with dirs := fun d => decide (d = backupDir env) || st.dirs d } (sourceFile path)
      = Except.ok t := hdec
  unfold addTorrent
  simp only [hexit, Bool.false_eq_true, if_false, hfile, hread]
  refine ⟨_, rfl, ?_, ?_, ?_, fun url hu => by simp [hu, originOf],
    fun hu => by simp [hu, originOf]⟩
  · unfold addTorrent_decoded addTorrent_checkDuplicate
    cases o <;> cases f <;> simp [hdup]
    all_goals rfl
  · intro hf
    subst hf
    unfold addTorrent_decoded addTorrent_checkDuplicate
    cases o <;> simp [hdup, emit]
  · intro hf
    subst hf
    unfold addTorrent_decoded addTorrent_checkDuplicate
    cases o <;> simp [hdup, fs_remove]

/-- Counterexample to C16: the torrent of `/src/a.torrent` is in the session;
adding the file again with `fromScanDir` set emits nothing (no
`duplicateTorrent`) and deletes the file. -/
theorem C16_duplicate_scan_dir_counterexample :
    ∃ st2 : bittorrent,
      (find_torrent addedState.s "H").is_valid = true
      ∧ addTorrent sampleEnv addedState "/src/a.torrent" true false none = some st2
      ∧ st2.signals = addedState.signals
      ∧ Signal.duplicateTorrent "/src/a.torrent" ∉ st2.signals
      ∧ st2.fs "/src/a.torrent" = none :=
  ⟨_, rfl, rfl, rfl, by decide, rfl⟩

/-- Witness for C16 (amended): adding `/src/a.torrent` again as a download from
a URL emits `duplicateTorrent` with the URL. -/
theorem C16_duplicate_notification_witness :
    ∃ st2 : bittorrent,
      addTorrent sampleEnv addedState "/src/a.torrent" false false (some "http://x/a.torrent")
        = some st2
      ∧ st2.signals = addedState.signals ++ [Signal.duplicateTorrent "http://x/a.torrent"] := by
  obtain ⟨st2, h1, _, h3, _, _, _⟩ :=
    C16_duplicate_notification sampleEnv addedState "/src/a.torrent" false false
      (some "http://x/a.torrent") sampleInfo rfl (by decide) rfl rfl
  exact ⟨st2, h1, (h3 rfl).1⟩

end bittorrent
end Qbt

namespace Qbt

/-! ## Priorities file: what an entry reads as -/

/-- The decimal numeral of `i` reads as `i` when `i` fits an `int` and as 0
otherwise. -/
theorem toInt_numeral (i : Nat) :
    toInt (Nat.toDigits 10 i) = if i ≤ 2147483647 then (i : Int) else 0 := by
  have hd := toString_isDigit i
  have hne : misc.toString i ≠ [] := by
    unfold misc.toString Nat.toDigits
    simp only [Nat.toDigitsCore]
    split
    · simp
    · exact toDigitsCore_ne_nil _ _ _ (by simp)
  have hp : parseDigits (misc.toString i) 0 = some i := by
    unfold misc.toString Nat.toDigits
    rw [parseDigits_toDigitsCore _ _ _ (by omega)]
    rfl
  show toInt (misc.toString i) = _
  unfold toInt
  rw [trimmedChars_self _ (fun c hc => (isDigit_facts c (hd c hc)).2.2.2.2.2)]
  cases hl : misc.toString i with
  | nil => exact absurd hl hne
  | cons c cs =>
    rw [hl] at hp hd
    have hc := isDigit_facts c (hd c (by simp))
    have h1 : ¬ c = '-' := hc.2.2.2.1
    have h2 : ¬ c = '+' := hc.2.2.2.2.1
    split
    · rename_i heq; simp at heq; exact absurd heq.1 h1
    · rename_i heq; simp at heq; exact absurd heq.1 h2
    · simp only [parseNat, hp, Option.map_some']
      by_cases hi : i ≤ 2147483647
      · have : (-2147483648 : Int) ≤ (i : Int) ∧ (i : Int) ≤ 2147483647 := by omega
        simp [this, hi]
      · have : ¬ ((-2147483648 : Int) ≤ (i : Int) ∧ (i : Int) ≤ 2147483647) := by omega
        simp [this, hi]

namespace bittorrent

/-- C4 (amended): for a valid handle and a priorities file of exactly
`fileCount + 1` newline-separated entries, `loadFilteredFiles` hands
`prioritize_files` a vector of exactly `fileCount` entries whose `i`-th entry
is what `toInt` reads from the `i`-th entry when that lies in `[0,7]` and 1
otherwise; for an entry that is the decimal numeral of `n` this is `n` when
`n ≤ 7`, 1 when `n` is larger and fits an `int`, and 0 when `n` does not fit
an `int`; every applied priority is in `[0,7]`. -/
theorem C4_loadFilteredFiles_vector (env : Env) (st : bittorrent) (hash : String)
    (content : List Char)
    (hv : (find_torrent st.s hash).is_valid = true)
    (hfile : st.fs (backupFile env (hash ++ ".priorities")) = some content)
    (hlen : (splitOn '\n' content).length = (find_torrent st.s hash).info.num_files + 1) :
    ∃ v : List Int,
      filteredFilesVector env st hash = some v
      ∧ (find_torrent (loadFilteredFiles env st hash).s hash).file_priorities = some v
      ∧ v.length = (find_torrent st.s hash).info.num_files
      ∧ (∀ i, i < (find_torrent st.s hash).info.num_files →
          v[i]? = some (if 0 ≤ toInt ((splitOn '\n' content).getD i [])
                          ∧ toInt ((splitOn '\n' content).getD i []) ≤ 7
                        then toInt ((splitOn '\n' content).getD i []) else 1))
      ∧ (∀ i n, i < (find_torrent st.s hash).info.num_files →
          (splitOn '\n' content).getD i [] = Nat.toDigits 10 n →
          v[i]? = some (if n ≤ 7 then (n : Int) else if n ≤ 2147483647 then 1 else 0))
      ∧ (∀ x ∈ v, 0 ≤ x ∧ x ≤ 7) := by
  have hh := find_torrent_info_hash st.s hash hv
  have hvec : filteredFilesVector env st hash
      = some ((List.range (find_torrent st.s hash).info.num_files).map
          (fun i => clampPriority (toInt ((splitOn '\n' content).getD i [])))) := by
    unfold filteredFilesVector
    simp only [hv, hh, hfile, hlen, Bool.not_true, ne_eq, not_true, if_false]
    rw [range_foldl_snoc]
    simp
  refine ⟨_, hvec, ?_, by simp, ?_, ?_, ?_⟩
  · unfold loadFilteredFiles
    rw [hvec]
    simp only
    rw [find_torrent_modify _ _ _ ?_]
    · simp [hv]
    · exact fun t => ⟨rfl, rfl⟩
  · intro i hi
    simp [hi, clampPriority_eq]
  · intro i n hi he
    simp only [List.getElem?_map, List.getElem?_range hi, Option.map_some', he, toInt_numeral,
      clampPriority]
    congr 1
    split_ifs <;> omega
  · intro x hx
    simp only [List.mem_map] at hx
    obtain ⟨i, _, rfl⟩ := hx
    exact clampPriority_range _

/-- Witness for C4 (amended): three files and the priorities file `0`, `9`,
`3`; the vector handed to the engine is 0, 1, 3. -/
theorem C4_loadFilteredFiles_vector_witness :
    ∃ v : List Int, filteredFilesVector sampleEnv sampleState "H" = some v
      ∧ v.length = 3 ∧ v[0]? = some 0 ∧ v[1]? = some 1 ∧ v[2]? = some 3
      ∧ ∀ x ∈ v, 0 ≤ x ∧ x ≤ 7 := by
  obtain ⟨v, h1, _, h3, _, h5, h6⟩ := C4_loadFilteredFiles_vector sampleEnv sampleState "H"
    "0\n9\n3\n".toList (by decide) (by decide) (by decide)
  exact ⟨v, h1, h3, h5 0 0 (by decide) (by decide), h5 1 9 (by decide) (by decide),
    h5 2 3 (by decide) (by decide), h6⟩

/-- Counterexample to C4: three files and the priorities file `2147483648`,
`9`, `3`, which has `fileCount + 1` entries.  The first persisted integer,
2147483648, lies outside `[0,7]`, and the first entry of the vector handed to
the engine is 0, not 1. -/
theorem C4_loadFilteredFiles_counterexample :
    (find_torrent oversizedPriorityState.s "H").is_valid = true
    ∧ oversizedPriorityState.fs (backupFile sampleEnv "H.priorities")
        = some "2147483648\n9\n3\n".toList
    ∧ (splitOn '\n' "2147483648\n9\n3\n".toList).length
        = (find_torrent oversizedPriorityState.s "H").info.num_files + 1
    ∧ (splitOn '\n' "2147483648\n9\n3\n".toList).getD 0 [] = Nat.toDigits 10 2147483648
    ∧ filteredFilesVector sampleEnv oversizedPriorityState "H" = some [0, 1, 3]
    ∧ (find_torrent (loadFilteredFiles sampleEnv oversizedPriorityState "H").s "H").file_priorities
        = some [0, 1, 3] := by
  refine ⟨by decide, by decide, by decide, by decide, by decide, by decide⟩

/-- C9 (amended): for a valid handle, with a priorities file of exactly
`fileCount + 1` entries `torrentEffectiveSize` returns the sum of the sizes of
exactly those files whose entry reads, by `toInt`, as a nonzero integer, and
with no priorities file it returns the total size of the torrent; an entry
that is the decimal numeral of `n` reads as nonzero exactly when `n` is not 0
and fits an `int`. -/
theorem C9_effective_size_sum (env : Env) (st : bittorrent) (hash : String)
    (hv : (find_torrent st.s hash).is_valid = true) :
    (∀ content : List Char,
        st.fs (backupFile env (hash ++ ".priorities")) = some content →
        (splitOn '\n' content).length = (find_torrent st.s hash).info.num_files + 1 →
        torrentEffectiveSize env st hash
          = ((((find_torrent st.s hash).info.files.zip (splitOn '\n' content)).filter
                (fun p => decide (toInt p.2 ≠ 0))).map Prod.fst).sum)
    ∧ (∀ n : Nat, toInt (Nat.toDigits 10 n) ≠ 0 ↔ (1 ≤ n ∧ n ≤ 2147483647))
    ∧ (st.fs (backupFile env (hash ++ ".priorities")) = none →
        torrentEffectiveSize env st hash = (find_torrent st.s hash).info.total_size) := by
  refine ⟨?_, ?_, ?_⟩
  · intro content hfile hlen
    have hle : (find_torrent st.s hash).info.files.length ≤ (splitOn '\n' content).length := by
      rw [hlen]; unfold torrent_info.num_files; omega
    have key := range_foldl_cond (fun e => clampPriority (toInt e) ≠ 0)
      (find_torrent st.s hash).info.files (splitOn '\n' content) 0 hle
    simp only [clampPriority_ne_zero, zero_add] at key
    simp only [torrentEffectiveSize, getTorrentHandle, hv, hfile, hlen, Bool.not_true,
      ne_eq, not_true, if_false, torrent_info.num_files, clampPriority_ne_zero]
    exact key
  · intro n
    rw [toInt_numeral]
    split_ifs <;> omega
  · intro hfile
    simp [torrentEffectiveSize, getTorrentHandle, hv, hfile]

/-- Witness for C9 (amended): files of sizes 10, 20, 30 with the entries `0`,
`9`, `3` have effective size 50. -/
theorem C9_effective_size_sum_witness :
    torrentEffectiveSize sampleEnv sampleState "H" = 50 := by
  rw [(C9_effective_size_sum sampleEnv sampleState "H" (by decide)).1
    "0\n9\n3\n".toList (by decide) (by decide)]
  decide

/-- Counterexample to C9: files of sizes 10, 20, 30 and the priorities file
`2147483648`, `9`, `3`, which has `fileCount + 1` entries, every persisted
integer being nonzero.  The effective size is 50, not 60: the file of the
first entry is left out. -/
theorem C9_effective_size_counterexample :
    (find_torrent oversizedPriorityState.s "H").is_valid = true
    ∧ (find_torrent oversizedPriorityState.s "H").info.files = [10, 20, 30]
    ∧ oversizedPriorityState.fs (backupFile sampleEnv "H.priorities")
        = some "2147483648\n9\n3\n".toList
    ∧ splitOn '\n' "2147483648\n9\n3\n".toList
        = [Nat.toDigits 10 2147483648, Nat.toDigits 10 9, Nat.toDigits 10 3, []]
    ∧ torrentEffectiveSize sampleEnv oversizedPriorityState "H" = 50
    ∧ torrentEffectiveSize sampleEnv oversizedPriorityState "H" ≠ 10 + 20 + 30 := by
  refine ⟨by decide, by decide, by decide, by decide, by decide, by decide⟩

end bittorrent
end Qbt
